import Mathlib

/-!
# Verification of the `risk` repository against its specification

Shallow embedding of `src/util.py` (combinatorics library) and the parts of
`src/risk.py` (game state machine) needed by the claims, together with
theorems settling each claim.

Conventions used throughout:
* Python non-negative machine integers that are only ever counted with are
  `Nat`; quantities that Python can drive negative (troop counts,
  reinforcement counts) are `Int`.
* Python functions that can raise are embedded as `Except String`; the
  message string identifies which `raise` fired.  A Python function that
  can *return None* (falling off the end) is embedded as `Option`.
* dictionaries keyed by unique names are embedded as lists of records;
  all boards in this development have pairwise distinct territory names
  and all player sequences pairwise distinct player names, matching the
  documented data model (names are unique keys).
* randomness (dice rolls) is embedded by passing the stream of values the
  Python `random.randint(1, 6)` calls would produce as an explicit list
  argument, consumed in call order.
-/

/-! ## Combinatorics library: embedding of `src/util.py` -/

/-- Embeds `util.integer_compositions` (src/util.py lines 6-14).
`integer_compositions(total, n)` yields, for `n == 1`, the single tuple
`(total,)`; otherwise for each `i` in `range(1, total)` it recurses on
`integer_compositions(total - i, n - 1)` and *appends* `i` at the end of
each produced tuple.  The generator for `n = 0` (and any smaller value)
yields nothing. -/
def integer_compositions (total : Nat) : Nat → List (List Nat)
  | 0 => []
  | 1 => [[total]]
  | n + 2 =>
    (List.range' 1 (total - 1)).flatMap fun i =>
      (integer_compositions (total - i) (n + 1)).map fun sub => sub ++ [i]

/-- Embeds `util.choose` (src/util.py lines 17-20) restricted to the
non-negative arguments it is actually called with inside `util.py` and
`risk.py` enumerators: `if k > n: return 0` and otherwise the exact
factorial formula with floor division. -/
def chooseNat (n k : Nat) : Nat :=
  if k > n then 0 else n.factorial / (k.factorial * (n - k).factorial)

/-- Embeds Python `math.factorial`: raises `ValueError` on negative input,
otherwise returns the factorial. -/
def pyFactorial (n : Int) : Except String Nat :=
  if n < 0 then .error "ValueError: factorial() not defined for negative values"
  else .ok n.toNat.factorial

/-- Embeds `util.choose` (src/util.py lines 17-20) on arbitrary Python
integers.  `if k > n: return 0`; otherwise
`fact(n) // (fact(k) * fact(n - k))`, where `fact` is `math.factorial`
and raises for negative arguments (so `choose` propagates that error).
The three factorial calls evaluate left to right; all are of non-negative
numbers exactly when the division is reached in Python, in which case the
floor division of non-negative integers is `Nat` division. -/
def choose (n k : Int) : Except String Int := do
  if k > n then
    return 0
  let a ← pyFactorial n
  let b ← pyFactorial k
  let c ← pyFactorial (n - k)
  return ((a / (b * c) : Nat) : Int)

/-- Embeds `util.kth_n_combination` (src/util.py lines 23-34).
`n = 0` returns `[]` unconditionally; with `items` empty and `n ≥ 1` the
guard `k >= choose(0, n) = 0` always fires the `IndexError`; otherwise
`combos_with_first = choose(len, n) - choose(len - 1, n)` decides whether
the head is taken. -/
def kth_n_combination {α : Type} : List α → Nat → Nat → Except String (List α)
  | _, 0, _ => .ok []
  | [], _ + 1, _ => .error "IndexError: there are not that many combinations"
  | x :: xs, n + 1, k =>
    let total := chooseNat (xs.length + 1) (n + 1)
    if k ≥ total then .error "IndexError: there are not that many combinations"
    else
      let combos_with_first := total - chooseNat xs.length (n + 1)
      if k < combos_with_first then
        (kth_n_combination xs n k).map (x :: ·)
      else
        kth_n_combination xs (n + 1) (k - combos_with_first)

/-- Embeds `util.num_compos_starting_with_i` (src/util.py lines 48-51):
`1` when `n == 1`, else `choose(total - 1 - i, n - 2)`.  In every call the
loop in `kth_n_integer_composition` makes, `total - 1 - i ≥ n - 2 ≥ 0`,
so `Nat` subtraction agrees with Python. -/
def num_compos_starting_with_i (total n i : Nat) : Nat :=
  if n = 1 then 1 else chooseNat (total - 1 - i) (n - 2)

/-- The Python loop header `range(total - n + 1, 0, -1)`:
the list `[m, m-1, ..., 1]` for `m = total - n + 1` (empty when that
bound is not positive). -/
def descRange (m : Nat) : List Nat :=
  (List.range' 1 m).reverse

/-- The `for i in range(total - n + 1, 0, -1)` loop body of
`util.kth_n_integer_composition`: subtract block counts until the rank
falls inside a block, then recurse via `rec`; falling off the loop end
returns Python `None`, embedded as `none`. -/
def kthCompGo (rec : Nat → Nat → Option (List Nat)) (total n : Nat) :
    List Nat → Nat → Option (List Nat)
  | [], _ => none
  | i :: rest, k =>
    let c := num_compos_starting_with_i total n i
    if k < c then (rec (total - i) k).map (i :: ·)
    else kthCompGo rec total n rest (k - c)

/-- Embeds `util.kth_n_integer_composition` (src/util.py lines 37-45).
`n = 0` returns the empty tuple; otherwise the descending loop over
first parts.  The function has no raise statement: exhausting the loop
returns Python `None` (`none` here). -/
def kth_n_integer_composition : Nat → Nat → Nat → Option (List Nat)
  | _, 0, _ => some []
  | total, n + 1, k =>
    kthCompGo (fun t k2 => kth_n_integer_composition t n k2) total (n + 1)
      (descRange (total - n)) k

/-- The canonical order in which `itertools.combinations` (used by
`PlaceState.available_actions`) enumerates `n`-element subsequences of a
list: all combinations containing the head first. -/
def combosList {α : Type} : Nat → List α → List (List α)
  | 0, _ => [[]]
  | _ + 1, [] => []
  | n + 1, x :: xs => (combosList n xs).map (x :: ·) ++ combosList (n + 1) xs

/-! ### Basic facts about `chooseNat` -/

theorem chooseNat_eq_choose (n k : Nat) : chooseNat n k = Nat.choose n k := by
  unfold chooseNat
  split
  · exact (Nat.choose_eq_zero_of_lt (by omega)).symm
  · exact (Nat.choose_eq_factorial_div_factorial (by omega)).symm

/-! ### Structure of `integer_compositions` -/

theorem integer_compositions_one (total : Nat) :
    integer_compositions total 1 = [[total]] := rfl

theorem integer_compositions_two_add (total n : Nat) :
    integer_compositions total (n + 2) =
      (List.range' 1 (total - 1)).flatMap
        (fun i => (integer_compositions (total - i) (n + 1)).map
          (fun sub => sub ++ [i])) := rfl

/-- Sum of binomial coefficients down a column (hockey stick), in the
form needed for counting compositions. -/
theorem sum_range_choose_col (m k : Nat) :
    ((List.range m).map (fun j => Nat.choose j k)).sum = Nat.choose m (k + 1) := by
  induction m with
  | zero => simp
  | succ m ih =>
    rw [List.range_succ, List.map_append, List.sum_append]
    simp [ih, Nat.choose_succ_succ, Nat.add_comm]

theorem list_sum_map_range (f : Nat → Nat) (n : Nat) :
    ((List.range n).map f).sum = ∑ i in Finset.range n, f i := rfl

theorem sum_range_choose_fin (M k : Nat) :
    ∑ j in Finset.range M, Nat.choose j k = Nat.choose M (k + 1) := by
  induction M with
  | zero => simp
  | succ M ih =>
    rw [Finset.sum_range_succ, ih, Nat.choose_succ_succ, Nat.succ_eq_add_one]
    omega

/-- Number of elements enumerated by `integer_compositions(total, n)`:
the binomial coefficient `C(total - 1, n - 1)`. -/
theorem integer_compositions_length :
    ∀ n total : Nat, 1 ≤ n →
      (integer_compositions total n).length = Nat.choose (total - 1) (n - 1) := by
  intro n
  induction n using Nat.strong_induction_on with
  | _ n ih =>
    match n with
    | 0 => intro total h; omega
    | 1 => intro total _; simp [integer_compositions]
    | m + 2 =>
      intro total _
      rw [integer_compositions_two_add, List.length_flatMap]
      simp only [Function.comp_def, List.length_map]
      have hcongr : (List.range' 1 (total - 1)).map
            (fun i => (integer_compositions (total - i) (m + 1)).length)
          = (List.range' 1 (total - 1)).map (fun i => Nat.choose (total - i - 1) m) := by
        apply List.map_congr_left
        intro i hi
        rw [ih (m + 1) (by omega) (total - i) (by omega)]
        have h1 : m + 1 - 1 = m := by omega
        rw [h1]
      rw [hcongr, List.range'_eq_map_range, List.map_map, list_sum_map_range]
      have hrefl : ∀ j ∈ Finset.range (total - 1),
          ((fun i => Nat.choose (total - i - 1) m) ∘ (1 + ·)) j
            = (fun jj => Nat.choose jj m) ((total - 1) - 1 - j) := by
        intro j hj
        rw [Finset.mem_range] at hj
        simp only [Function.comp_apply]
        congr 1
        omega
      rw [Finset.sum_congr rfl hrefl,
        Finset.sum_range_reflect (fun jj => Nat.choose jj m) (total - 1),
        sum_range_choose_fin]
      rfl

/-- A list of positive integers is at least as long as its sum is large. -/
theorem length_le_sum_of_pos :
    ∀ l : List Nat, (∀ x ∈ l, 1 ≤ x) → l.length ≤ l.sum := by
  intro l
  induction l with
  | nil => simp
  | cons x xs ih =>
    intro h
    have hx := h x (by simp)
    have := ih (fun y hy => h y (by simp [hy]))
    simp only [List.length_cons, List.sum_cons]
    omega

/-- Membership characterisation for `integer_compositions`: exactly the
length-`n` tuples of positive integers summing to `total`. -/
theorem mem_integer_compositions :
    ∀ n total : Nat, 1 ≤ total → ∀ l : List Nat,
      (l ∈ integer_compositions total n ↔
        l.length = n ∧ l.sum = total ∧ ∀ x ∈ l, 1 ≤ x) := by
  intro n
  induction n using Nat.strong_induction_on with
  | _ n ih =>
    match n with
    | 0 =>
      intro total htot l
      simp only [integer_compositions, List.not_mem_nil, false_iff]
      rintro ⟨hlen, hsum, _⟩
      rw [List.length_eq_zero.1 hlen] at hsum
      simp at hsum
      omega
    | 1 =>
      intro total htot l
      simp only [integer_compositions, List.mem_singleton]
      constructor
      · rintro rfl
        refine ⟨rfl, by simp, ?_⟩
        intro x hx
        simp at hx
        omega
      · rintro ⟨hlen, hsum, _⟩
        match l, hlen with
        | [x], _ =>
          simp at hsum
          simp [hsum]
    | m + 2 =>
      intro total htot l
      rw [integer_compositions_two_add, List.mem_flatMap]
      constructor
      · rintro ⟨i, hi, hl⟩
        have hi2 := List.mem_range'_1.1 hi
        rw [List.mem_map] at hl
        obtain ⟨sub, hsub, rfl⟩ := hl
        have hiff := (ih (m + 1) (by omega) (total - i) (by omega) sub).1 hsub
        obtain ⟨hlen, hsum, hpos⟩ := hiff
        refine ⟨by simp [hlen], by simp [hsum]; omega, ?_⟩
        intro x hx
        rw [List.mem_append] at hx
        rcases hx with hx | hx
        · exact hpos x hx
        · simp at hx
          omega
      · rintro ⟨hlen, hsum, hpos⟩
        have hne : l ≠ [] := by
          intro h
          rw [h] at hlen
          simp at hlen
        obtain ⟨ini, i, hl⟩ := (List.eq_nil_or_concat l).resolve_left hne
        rw [List.concat_eq_append] at hl
        subst hl
        have hilast : 1 ≤ i := hpos i (by simp)
        have hinilen : ini.length = m + 1 := by
          simpa using hlen
        have hinipos : ∀ x ∈ ini, 1 ≤ x := fun x hx => hpos x (by simp [hx])
        have hinisum : ini.sum + i = total := by
          simpa using hsum
        have hinige : m + 1 ≤ ini.sum := by
          have := length_le_sum_of_pos ini hinipos
          omega
        refine ⟨i, List.mem_range'_1.2 ⟨hilast, by omega⟩, ?_⟩
        rw [List.mem_map]
        refine ⟨ini, ?_, rfl⟩
        exact (ih (m + 1) (by omega) (total - i) (by omega) ini).2
          ⟨hinilen, by omega, hinipos⟩

/-- Blocks of a `flatMap` whose elements each carry their originating key
are pairwise disjoint, so the concatenation of duplicate-free blocks over
a duplicate-free key list is duplicate-free. -/
theorem nodup_flatMap_key {α β : Type} (l : List α) (F : α → List β) (key : β → α)
    (hl : l.Nodup) (hF : ∀ i ∈ l, (F i).Nodup)
    (hkey : ∀ i ∈ l, ∀ x ∈ F i, key x = i) :
    (l.flatMap F).Nodup := by
  induction l with
  | nil => simp
  | cons i rest ih =>
    rw [List.flatMap_cons]
    have hlrest : rest.Nodup := (List.nodup_cons.1 hl).2
    have hirest : i ∉ rest := (List.nodup_cons.1 hl).1
    refine (hF i (by simp)).append
      (ih hlrest (fun j hj => hF j (by simp [hj]))
        (fun j hj x hx => hkey j (by simp [hj]) x hx)) ?_
    intro x hxi hxrest
    rw [List.mem_flatMap] at hxrest
    obtain ⟨j, hj, hxj⟩ := hxrest
    have h1 : key x = i := hkey i (by simp) x hxi
    have h2 : key x = j := hkey j (by simp [hj]) x hxj
    exact hirest (h1 ▸ h2 ▸ hj)

/-- Pairwise relation over a `flatMap`: holds if each block is pairwise
related and elements of earlier blocks relate to elements of later
blocks. -/
theorem pairwise_flatMap {α β : Type} (R : β → β → Prop) (S : α → α → Prop)
    (l : List α) (F : α → List β)
    (hl : l.Pairwise S) (hF : ∀ i ∈ l, (F i).Pairwise R)
    (hcross : ∀ i ∈ l, ∀ j ∈ l, S i j → ∀ x ∈ F i, ∀ y ∈ F j, R x y) :
    (l.flatMap F).Pairwise R := by
  induction l with
  | nil => simp
  | cons i rest ih =>
    rw [List.flatMap_cons, List.pairwise_append]
    have hcons := List.pairwise_cons.1 hl
    refine ⟨hF i (by simp), ih hcons.2 (fun j hj => hF j (by simp [hj]))
      (fun a ha b hb hS x hx y hy =>
        hcross a (by simp [ha]) b (by simp [hb]) hS x hx y hy), ?_⟩
    intro x hx y hy
    rw [List.mem_flatMap] at hy
    obtain ⟨j, hj, hyj⟩ := hy
    exact hcross i (by simp) j (by simp [hj]) (hcons.1 j hj) x hx y hyj

theorem pairwise_lt_range' (s n : Nat) : (List.range' s n).Pairwise (· < ·) := by
  induction n generalizing s with
  | zero => simp
  | succ n ih =>
    rw [List.range'_succ]
    refine List.pairwise_cons.2 ⟨?_, ih (s + 1)⟩
    intro a ha
    have := List.mem_range'_1.1 ha
    omega

/-- The enumeration order of `integer_compositions` is strictly increasing
in the *reversed* tuples under the lexicographic order (equivalently: the
last part is the outermost ascending key). -/
theorem integer_compositions_pairwise :
    ∀ n total : Nat,
      (integer_compositions total n).Pairwise
        (fun a b => List.Lex (· < ·) a.reverse b.reverse) := by
  intro n
  induction n using Nat.strong_induction_on with
  | _ n ih =>
    match n with
    | 0 => intro total; simp [integer_compositions]
    | 1 => intro total; simp [integer_compositions]
    | m + 2 =>
      intro total
      rw [integer_compositions_two_add]
      apply pairwise_flatMap _ (· < ·)
      · exact pairwise_lt_range' 1 (total - 1)
      · intro i _
        rw [List.pairwise_map]
        refine (ih (m + 1) (by omega) (total - i)).imp ?_
        intro a b hab
        simpa using List.Lex.cons hab
      · intro i _ j _ hij x hx y hy
        rw [List.mem_map] at hx hy
        obtain ⟨a, _, rfl⟩ := hx
        obtain ⟨b, _, rfl⟩ := hy
        simpa using (List.Lex.rel hij :
          List.Lex (fun m n => m < n) (i :: a.reverse) (j :: b.reverse))

theorem lex_lt_irrefl : ∀ a : List Nat, ¬ List.Lex (· < ·) a a := by
  intro a
  induction a with
  | nil => intro h; cases h
  | cons x xs ih =>
    intro h
    cases h with
    | cons h => exact ih h
    | rel h => omega

/-- `integer_compositions` never produces the same tuple twice. -/
theorem integer_compositions_nodup (n total : Nat) :
    (integer_compositions total n).Nodup := by
  have hp := integer_compositions_pairwise n total
  refine hp.imp ?_
  intro a b hab
  intro he
  subst he
  exact lex_lt_irrefl a.reverse hab

/-! ### The enumeration order realised by `kth_n_integer_composition` -/

/-- The list of compositions of `total` into `n` positive parts in the
order `kth_n_integer_composition` indexes them: first part descending
from `total - n + 1` to `1`, recursively.  This is a specification-side
definition used to relate the unranker to the enumerator. -/
def compositionsDesc : Nat → Nat → List (List Nat)
  | _, 0 => [[]]
  | total, 1 => [[total]]
  | total, n + 2 =>
    (descRange (total - (n + 1))).flatMap fun i =>
      (compositionsDesc (total - i) (n + 1)).map (i :: ·)

theorem descRange_succ (m : Nat) : descRange (m + 1) = (m + 1) :: descRange m := by
  unfold descRange
  rw [List.range'_concat, List.reverse_append]
  simp [Nat.add_comm]

theorem mem_descRange {i m : Nat} : i ∈ descRange m ↔ 1 ≤ i ∧ i ≤ m := by
  unfold descRange
  rw [List.mem_reverse, List.mem_range'_1]
  omega

theorem descRange_nodup (m : Nat) : (descRange m).Nodup := by
  unfold descRange
  rw [List.nodup_reverse]
  exact List.nodup_range' 1 m 1 (by omega)

theorem compositionsDesc_two_add (total n : Nat) :
    compositionsDesc total (n + 2) =
      (descRange (total - (n + 1))).flatMap
        (fun i => (compositionsDesc (total - i) (n + 1)).map (i :: ·)) := rfl

theorem sum_range_choose_shift (m n : Nat) :
    ∑ j in Finset.range m, Nat.choose (n + j) n = Nat.choose (n + m) (n + 1) := by
  induction m with
  | zero => simp
  | succ m ih =>
    rw [Finset.sum_range_succ, ih]
    have : n + (m + 1) = (n + m) + 1 := by omega
    rw [this, Nat.choose_succ_succ, Nat.succ_eq_add_one]
    omega

theorem compositionsDesc_length :
    ∀ n total : Nat, 1 ≤ n →
      (compositionsDesc total n).length = Nat.choose (total - 1) (n - 1) := by
  intro n
  induction n using Nat.strong_induction_on with
  | _ n ih =>
    match n with
    | 0 => intro total h; omega
    | 1 => intro total _; simp [compositionsDesc]
    | m + 2 =>
      intro total _
      rw [compositionsDesc_two_add, List.length_flatMap]
      simp only [Function.comp_def, List.length_map]
      have hcongr : (descRange (total - (m + 1))).map
            (fun i => (compositionsDesc (total - i) (m + 1)).length)
          = (descRange (total - (m + 1))).map (fun i => Nat.choose (total - i - 1) m) := by
        apply List.map_congr_left
        intro i hi
        rw [ih (m + 1) (by omega) (total - i)]
        · have h1 : m + 1 - 1 = m := by omega
          rw [h1]
        · omega
      rw [hcongr]
      unfold descRange
      rw [List.map_reverse, List.sum_reverse, List.range'_eq_map_range,
        List.map_map, list_sum_map_range]
      by_cases hcase : m + 2 ≤ total
      · have hstep : ∀ j ∈ Finset.range (total - (m + 1)),
            ((fun i => Nat.choose (total - i - 1) m) ∘ (1 + ·)) j
              = (fun jj => Nat.choose (m + jj) m) ((total - (m + 1)) - 1 - j) := by
          intro j hj
          rw [Finset.mem_range] at hj
          simp only [Function.comp_apply]
          congr 1
          omega
        rw [Finset.sum_congr rfl hstep,
          Finset.sum_range_reflect (fun jj => Nat.choose (m + jj) m) (total - (m + 1)),
          sum_range_choose_shift]
        have harg : m + (total - (m + 1)) = total - 1 := by omega
        rw [harg]
        rfl
      · have h0 : total - (m + 1) = 0 := by omega
        rw [h0]
        simp
        rw [Nat.choose_eq_zero_of_lt (by omega)]

/-- Membership characterisation for `compositionsDesc`: also exactly the
length-`n` tuples of positive integers summing to `total`. -/
theorem mem_compositionsDesc :
    ∀ n total : Nat, 1 ≤ n → 1 ≤ total → ∀ l : List Nat,
      (l ∈ compositionsDesc total n ↔
        l.length = n ∧ l.sum = total ∧ ∀ x ∈ l, 1 ≤ x) := by
  intro n
  induction n using Nat.strong_induction_on with
  | _ n ih =>
    match n with
    | 0 => intro total hn; omega
    | 1 =>
      intro total _ htot l
      simp only [compositionsDesc, List.mem_singleton]
      constructor
      · rintro rfl
        refine ⟨rfl, by simp, ?_⟩
        intro x hx
        simp at hx
        omega
      · rintro ⟨hlen, hsum, _⟩
        match l, hlen with
        | [x], _ =>
          simp at hsum
          simp [hsum]
    | m + 2 =>
      intro total _ htot l
      rw [compositionsDesc_two_add, List.mem_flatMap]
      constructor
      · rintro ⟨i, hi, hl⟩
        have hi2 := mem_descRange.1 hi
        rw [List.mem_map] at hl
        obtain ⟨sub, hsub, rfl⟩ := hl
        have hit : i < total := by omega
        have hiff := (ih (m + 1) (by omega) (total - i) (by omega) (by omega) sub).1 hsub
        obtain ⟨hlen, hsum, hpos⟩ := hiff
        refine ⟨by simp [hlen], by simp [hsum]; omega, ?_⟩
        intro x hx
        rw [List.mem_cons] at hx
        rcases hx with hx | hx
        · omega
        · exact hpos x hx
      · rintro ⟨hlen, hsum, hpos⟩
        match l with
        | i :: sub =>
          have hihd : 1 ≤ i := hpos i (by simp)
          have hsublen : sub.length = m + 1 := by simpa using hlen
          have hsubpos : ∀ x ∈ sub, 1 ≤ x := fun x hx => hpos x (by simp [hx])
          have hsubsum : i + sub.sum = total := by simpa using hsum
          have hsubge : m + 1 ≤ sub.sum := by
            have := length_le_sum_of_pos sub hsubpos
            omega
          refine ⟨i, mem_descRange.2 ⟨hihd, by omega⟩, ?_⟩
          rw [List.mem_map]
          exact ⟨sub, (ih (m + 1) (by omega) (total - i) (by omega) (by omega) sub).2
            ⟨hsublen, by omega, hsubpos⟩, rfl⟩

theorem compositionsDesc_nodup :
    ∀ n total : Nat, (compositionsDesc total n).Nodup := by
  intro n
  induction n using Nat.strong_induction_on with
  | _ n ih =>
    match n with
    | 0 => intro total; simp [compositionsDesc]
    | 1 => intro total; simp [compositionsDesc]
    | m + 2 =>
      intro total
      rw [compositionsDesc_two_add]
      apply nodup_flatMap_key _ _ (fun l => l.headD 0)
      · exact descRange_nodup _
      · intro i _
        exact (ih (m + 1) (by omega) (total - i)).map
          (fun a b hab => by simpa using hab)
      · intro i _ x hx
        rw [List.mem_map] at hx
        obtain ⟨sub, _, rfl⟩ := hx
        simp

theorem kth_n_integer_composition_succ (total n k : Nat) :
    kth_n_integer_composition total (n + 1) k =
      kthCompGo (fun t k2 => kth_n_integer_composition t n k2) total (n + 1)
        (descRange (total - n)) k := rfl

/-- The descending loop of the composition unranker walks the blocks of
the descending-first-part enumeration: for any rank it returns exactly the
indexed element of the concatenated blocks (or `none` past the end),
provided the recursive calls already do so. -/
theorem kthCompGo_spec (rec : Nat → Nat → Option (List Nat)) (total m : Nat)
    (hrec : ∀ t k2, m + 1 ≤ t → k2 < Nat.choose (t - 1) m →
      rec t k2 = (compositionsDesc t (m + 1))[k2]?) :
    ∀ is : List Nat, (∀ i ∈ is, 1 ≤ i ∧ i ≤ total - (m + 1)) →
      ∀ k : Nat,
        kthCompGo rec total (m + 2) is k =
          (is.flatMap fun i => (compositionsDesc (total - i) (m + 1)).map (i :: ·))[k]? := by
  intro is
  induction is with
  | nil => intro _ k; simp [kthCompGo]
  | cons i rest ih =>
    intro hmem k
    have hi := hmem i (by simp)
    have hcount : num_compos_starting_with_i total (m + 2) i
        = (compositionsDesc (total - i) (m + 1)).length := by
      rw [compositionsDesc_length (m + 1) (total - i) (by omega)]
      unfold num_compos_starting_with_i
      rw [if_neg (by omega), chooseNat_eq_choose]
      have h1 : total - 1 - i = total - i - 1 := by omega
      have h2 : m + 2 - 2 = m := by omega
      have h3 : m + 1 - 1 = m := by omega
      rw [h1, h2, h3]
    rw [List.flatMap_cons, List.getElem?_append]
    rw [kthCompGo]
    by_cases hk : k < num_compos_starting_with_i total (m + 2) i
    · rw [if_pos hk, if_pos (by rw [List.length_map]; omega)]
      rw [hrec (total - i) k (by omega) (by
        rw [hcount, compositionsDesc_length (m + 1) (total - i) (by omega)] at hk
        have h3 : m + 1 - 1 = m := by omega
        rw [h3] at hk
        exact hk)]
      rw [List.getElem?_map]
    · rw [if_neg hk, if_neg (by rw [List.length_map]; omega)]
      rw [List.length_map, ← hcount]
      exact ih (fun j hj => hmem j (by simp [hj])) (k - num_compos_starting_with_i total (m + 2) i)

/-- For every in-range rank, `kth_n_integer_composition` returns exactly
the rank-th entry of the descending-first-part enumeration
`compositionsDesc`. -/
theorem kth_n_integer_composition_getElem :
    ∀ n, 1 ≤ n → ∀ total k, n ≤ total → k < Nat.choose (total - 1) (n - 1) →
      kth_n_integer_composition total n k = (compositionsDesc total n)[k]? := by
  intro n
  induction n using Nat.strong_induction_on with
  | _ n ih =>
    match n with
    | 0 => intro h; omega
    | 1 =>
      intro _ total k htot hk
      have hk0 : k = 0 := by
        have h0 : (1 : Nat) - 1 = 0 := rfl
        rw [h0] at hk
        have : Nat.choose (total - 1) 0 = 1 := Nat.choose_zero_right _
        omega
      subst hk0
      obtain ⟨t, rfl⟩ : ∃ t, total = t + 1 := ⟨total - 1, by omega⟩
      rw [kth_n_integer_composition_succ]
      have hd : descRange (t + 1 - 0) = (t + 1) :: descRange t := by
        rw [Nat.sub_zero, descRange_succ]
      rw [hd, kthCompGo]
      simp only [num_compos_starting_with_i, if_pos rfl, if_pos Nat.zero_lt_one]
      rfl
    | m + 2 =>
      intro _ total k htot hk
      rw [kth_n_integer_composition_succ, compositionsDesc_two_add]
      have harg : total - (m + 1) = total - (m + 1) := rfl
      apply kthCompGo_spec
      · intro t k2 ht hk2
        have h3 : m + 1 - 1 = m := by omega
        exact ih (m + 1) (by omega) (by omega) t k2 ht (by rw [h3]; exact hk2)
      · intro i hi
        have := mem_descRange.1 hi
        omega

/-- For `parts ≥ 2` and any out-of-range rank the composition unranker
falls off its loop and returns Python `None` -- it has no failure path. -/
theorem kth_n_integer_composition_none (m total k : Nat)
    (hk : Nat.choose (total - 1) (m + 1) ≤ k) :
    kth_n_integer_composition total (m + 2) k = none := by
  rw [kth_n_integer_composition_succ]
  rw [kthCompGo_spec _ total m ?hrec (descRange (total - (m + 1))) ?hmem k]
  case hrec =>
    intro t k2 ht hk2
    have h3 : m + 1 - 1 = m := by omega
    exact kth_n_integer_composition_getElem (m + 1) (by omega) t k2 ht (by rw [h3]; exact hk2)
  case hmem =>
    intro i hi
    have := mem_descRange.1 hi
    omega
  apply List.getElem?_eq_none
  rw [← compositionsDesc_two_add, compositionsDesc_length (m + 2) total (by omega)]
  have h3 : m + 2 - 1 = m + 1 := by omega
  rw [h3]
  exact hk

theorem kthCompGo_one (rec : Nat → Nat → Option (List Nat)) (total : Nat)
    (hrec : ∀ t k2, rec t k2 = some []) :
    ∀ (is : List Nat) (k : Nat),
      kthCompGo rec total 1 is k = (is.map (fun i => [i]))[k]? := by
  intro is
  induction is with
  | nil => intro k; simp [kthCompGo]
  | cons i rest ih =>
    intro k
    rw [kthCompGo]
    have hnum : num_compos_starting_with_i total 1 i = 1 := by
      simp [num_compos_starting_with_i]
    rw [hnum]
    by_cases hk : k < 1
    · have hk0 : k = 0 := by omega
      subst hk0
      rw [if_pos Nat.zero_lt_one, hrec]
      simp
    · rw [if_neg hk]
      have hk1 : k = (k - 1) + 1 := by omega
      rw [ih (k - 1), List.map_cons, hk1, List.getElem?_cons_succ]
      simp

theorem descRange_map_singleton_getElem (m k : Nat) (hk : k < m) :
    ((descRange m).map (fun i => [i]))[k]? = some [m - k] := by
  rw [List.getElem?_map]
  unfold descRange
  rw [List.getElem?_reverse (by rw [List.length_range']; omega), List.length_range',
    List.getElem?_range' 1 1 (by omega)]
  have harg : 1 + 1 * (m - 1 - k) = m - k := by omega
  rw [harg]
  rfl

/-- Behaviour of the composition unranker at `parts = 1`: every rank
`0 ≤ k < total` "succeeds" with the single-element tuple `[total - k]`
(only rank 0 is a genuine composition of `total`), and ranks `≥ total`
return `None`. -/
theorem kth_n_integer_composition_one (total k : Nat) :
    kth_n_integer_composition total 1 k =
      if k < total then some [total - k] else none := by
  rw [kth_n_integer_composition_succ]
  rw [kthCompGo_one (fun t k2 => kth_n_integer_composition t 0 k2) total
    (fun t k2 => rfl)]
  by_cases hk : k < total
  · rw [if_pos hk, Nat.sub_zero, descRange_map_singleton_getElem total k hk]
  · rw [if_neg hk, Nat.sub_zero]
    apply List.getElem?_eq_none
    simp [descRange]
    omega

/-! ### Structure of `combosList` and the combination unranker -/

theorem combosList_length {α : Type} :
    ∀ (items : List α) (n : Nat),
      (combosList n items).length = Nat.choose items.length n := by
  intro items
  induction items with
  | nil =>
    intro n
    match n with
    | 0 => simp [combosList]
    | _ + 1 => simp [combosList]
  | cons x xs ih =>
    intro n
    match n with
    | 0 => simp [combosList]
    | n + 1 =>
      rw [combosList, List.length_append, List.length_map, ih n, ih (n + 1)]
      rw [List.length_cons, Nat.choose_succ_succ]

theorem mem_combosList {α : Type} :
    ∀ (items : List α) (n : Nat) (l : List α),
      (l ∈ combosList n items ↔ l.Sublist items ∧ l.length = n) := by
  intro items
  induction items with
  | nil =>
    intro n l
    match n with
    | 0 =>
      simp only [combosList, List.mem_singleton]
      constructor
      · rintro rfl; simp
      · rintro ⟨hs, hl⟩
        cases hs
        rfl
    | n + 1 =>
      simp only [combosList, List.not_mem_nil, false_iff]
      rintro ⟨hs, hl⟩
      cases hs
      simp at hl
  | cons x xs ih =>
    intro n l
    match n with
    | 0 =>
      simp only [combosList, List.mem_singleton]
      constructor
      · rintro rfl; simp
      · rintro ⟨_, hl⟩
        exact List.length_eq_zero.1 hl
    | n + 1 =>
      rw [combosList, List.mem_append, List.mem_map]
      constructor
      · rintro (⟨t, ht, rfl⟩ | hB)
        · have := (ih n t).1 ht
          exact ⟨List.Sublist.cons₂ x this.1, by simp [this.2]⟩
        · have := (ih (n + 1) l).1 hB
          exact ⟨List.Sublist.cons x this.1, this.2⟩
      · rintro ⟨hs, hl⟩
        cases hs with
        | cons _ h2 => exact Or.inr ((ih (n + 1) l).2 ⟨h2, hl⟩)
        | cons₂ _ h2 =>
          refine Or.inl ⟨_, (ih n _).2 ⟨h2, by simpa using hl⟩, rfl⟩

theorem combosList_nodup {α : Type} :
    ∀ (items : List α) (n : Nat), items.Nodup → (combosList n items).Nodup := by
  intro items
  induction items with
  | nil =>
    intro n _
    match n with
    | 0 => simp [combosList]
    | _ + 1 => simp [combosList]
  | cons x xs ih =>
    intro n hnd
    have hx : x ∉ xs := (List.nodup_cons.1 hnd).1
    have hxs : xs.Nodup := (List.nodup_cons.1 hnd).2
    match n with
    | 0 => simp [combosList]
    | n + 1 =>
      rw [combosList]
      refine ((ih n hxs).map (fun a b hab => by simpa using hab)).append
        (ih (n + 1) hxs) ?_
      intro l hlA hlB
      rw [List.mem_map] at hlA
      obtain ⟨t, _, rfl⟩ := hlA
      have hsub := ((mem_combosList xs (n + 1) (x :: t)).1 hlB).1
      exact hx (hsub.subset (by simp))

/-- For every in-range rank, `kth_n_combination` returns exactly the
rank-th entry of the `itertools.combinations` enumeration order. -/
theorem kth_n_combination_getElem {α : Type} :
    ∀ (items : List α) (n k : Nat), k < Nat.choose items.length n →
      kth_n_combination items n k = ((combosList n items).map Except.ok)[k]?.getD
        (.error "IndexError: there are not that many combinations") := by
  intro items
  induction items with
  | nil =>
    intro n k hk
    match n with
    | 0 =>
      have hk0 : k = 0 := by
        rw [List.length_nil, Nat.choose_zero_right] at hk
        omega
      subst hk0
      rfl
    | n + 1 =>
      rw [List.length_nil, Nat.choose_eq_zero_of_lt (by omega)] at hk
      omega
  | cons x xs ih =>
    intro n k hk
    match n with
    | 0 =>
      have hk0 : k = 0 := by
        rw [Nat.choose_zero_right] at hk
        omega
      subst hk0
      rfl
    | n + 1 =>
      rw [kth_n_combination]
      simp only [chooseNat_eq_choose]
      have hpas : Nat.choose (xs.length + 1) (n + 1)
          = Nat.choose xs.length n + Nat.choose xs.length (n + 1) := by
        rw [Nat.choose_succ_succ, Nat.succ_eq_add_one]
      rw [List.length_cons] at hk
      rw [if_neg (by omega)]
      have hcwf : Nat.choose (xs.length + 1) (n + 1) - Nat.choose xs.length (n + 1)
          = Nat.choose xs.length n := by
        omega
      rw [hcwf, combosList, List.map_append, List.getElem?_append]
      by_cases hkc : k < Nat.choose xs.length n
      · rw [if_pos hkc, if_pos (by
          rw [List.length_map, List.length_map, combosList_length]
          exact hkc)]
        have hklt : k < (combosList n xs).length := by
          rw [combosList_length]; exact hkc
        have ht : (combosList n xs)[k]? = some ((combosList n xs).get ⟨k, hklt⟩) :=
          List.getElem?_eq_getElem hklt
        rw [ih n k hkc, List.map_map, List.getElem?_map, List.getElem?_map, ht]
        rfl
      · rw [if_neg hkc, if_neg (by
          rw [List.length_map, List.length_map, combosList_length]
          omega)]
        rw [List.length_map, List.length_map, combosList_length]
        apply ih
        omega

theorem kth_n_combination_error {α : Type} :
    ∀ (items : List α) (n k : Nat), 1 ≤ n → Nat.choose items.length n ≤ k →
      kth_n_combination items n k
        = .error "IndexError: there are not that many combinations" := by
  intro items n k h1 hk
  match items, n with
  | [], n + 1 => rfl
  | x :: xs, n + 1 =>
    rw [kth_n_combination]
    simp only [chooseNat_eq_choose]
    rw [List.length_cons] at hk
    rw [if_pos (by omega)]

theorem kth_n_combination_isOk {α : Type} (items : List α) (n k : Nat)
    (hk : k < Nat.choose items.length n) :
    (kth_n_combination items n k).isOk = true := by
  rw [kth_n_combination_getElem items n k hk]
  have hklt : k < ((combosList n items).map
      (Except.ok : List α → Except String (List α))).length := by
    rw [List.length_map, combosList_length]
    exact hk
  rw [List.getElem?_eq_getElem hklt]
  simp only [Option.getD_some]
  rw [List.getElem_map]
  rfl

/-- `kth_n_integer_composition` on an in-range rank, as a list lookup in
`compositionsDesc` with a total index. -/
theorem kth_n_integer_composition_get (total n k : Nat) (h1 : 1 ≤ n)
    (h2 : n ≤ total) (hk : k < (compositionsDesc total n).length) :
    kth_n_integer_composition total n k
      = some ((compositionsDesc total n).get ⟨k, hk⟩) := by
  rw [compositionsDesc_length n total h1] at hk
  rw [kth_n_integer_composition_getElem n h1 total k h2 hk]
  exact List.getElem?_eq_getElem (by rw [compositionsDesc_length n total h1]; exact hk)

/-! ## Claim C10: `util.choose` -/

/-- Claim C10 counterexample: `choose(4, -1)` does not return 0; it raises
`ValueError` out of `math.factorial` because the code only short-circuits
on `k > n`, never on `k < 0`. -/
theorem c10_counterexample :
    choose 4 (-1) = .error "ValueError: factorial() not defined for negative values"
    ∧ ∀ z : Int, choose 4 (-1) ≠ .ok z := by
  refine ⟨rfl, ?_⟩
  intro z h
  rw [show choose 4 (-1)
      = .error "ValueError: factorial() not defined for negative values" from rfl] at h
  exact Except.noConfusion h

/-- Claim C10 amended: for every n ≥ 0, `choose(n, k)` returns the exact
binomial coefficient for every k ≥ 0 (in particular 0 whenever k > n),
including `choose(4,2) == 6` and `choose(10,3) == 120`; but for k < 0 it
raises `ValueError` (from `factorial`) instead of returning 0. -/
theorem c10_choose_amended :
    (∀ n k : Nat, choose n k = .ok (Nat.choose n k))
    ∧ (∀ n k : Nat, n < k → choose n k = .ok 0)
    ∧ choose 4 2 = .ok 6 ∧ choose 10 3 = .ok 120
    ∧ (∀ n k : Int, 0 ≤ n → k < 0 →
        choose n k = .error "ValueError: factorial() not defined for negative values") := by
  have hmain : ∀ n k : Nat, choose n k = .ok (Nat.choose n k) := by
    intro n k
    unfold choose
    by_cases hkn : k > n
    · rw [if_pos (by exact_mod_cast hkn)]
      rw [Nat.choose_eq_zero_of_lt hkn]
      rfl
    · rw [if_neg (by exact_mod_cast hkn)]
      have hsub : (n : Int) - (k : Int) = ((n - k : Nat) : Int) := by
        omega
      have hfact : ∀ m : Nat, pyFactorial (m : Int) = .ok m.factorial := by
        intro m
        unfold pyFactorial
        rw [if_neg (by omega), Int.toNat_natCast]
      rw [hfact n, hsub, hfact (n - k), hfact k,
        Nat.choose_eq_factorial_div_factorial (by omega)]
      rfl
  refine ⟨hmain, ?_, ?_, ?_, ?_⟩
  · intro n k h
    rw [hmain n k, Nat.choose_eq_zero_of_lt h]
    rfl
  · rfl
  · rfl
  · intro n k hn hk
    unfold choose
    rw [if_neg (by omega)]
    unfold pyFactorial
    rw [if_neg (by omega), if_pos hk]
    rfl

theorem c10_choose_amended_witness :
    choose 5 3 = .ok 10
    ∧ choose 2 4 = .ok 0
    ∧ choose 3 (-2) = .error "ValueError: factorial() not defined for negative values" :=
  ⟨c10_choose_amended.1 5 3,
   c10_choose_amended.2.1 2 4 (by omega),
   c10_choose_amended.2.2.2.2 3 (-2) (by omega) (by omega)⟩

/-! ## Claim C7: out-of-range behaviour of the unrankers -/

/-- Claim C7 counterexample: `unrankComposition(2, 1, 1)` has rank
`1 >= C(1, 0) = 1` but does not fail with an OutOfRange error: the code
returns the tuple `(1,)` (which is not even a composition of 2). -/
theorem c7_counterexample :
    Nat.choose (2 - 1) (1 - 1) ≤ 1
    ∧ kth_n_integer_composition 2 1 1 = some [1] :=
  ⟨by decide, by decide⟩

/-- Claim C7 amended: `unrankCombination` fails with an IndexError for
every rank at or beyond `choose(len(items), k)` when `k ≥ 1` and returns a
result below that count; `unrankComposition`, however, has no failure
path: for `parts ≥ 2` an out-of-range rank returns Python `None`, and for
`parts = 1` the ranks `1 .. total-1` return one-element tuples that are
not compositions of `total` (rank ≥ total returns `None`).  For every
rank below the count it returns a genuine composition. -/
theorem c7_amended :
    (∀ (α : Type) (items : List α) (n k : Nat), 1 ≤ n →
        Nat.choose items.length n ≤ k →
        kth_n_combination items n k
          = .error "IndexError: there are not that many combinations")
    ∧ (∀ (α : Type) (items : List α) (n k : Nat),
        k < Nat.choose items.length n →
        (kth_n_combination items n k).isOk = true)
    ∧ (∀ total n k : Nat, 2 ≤ n → Nat.choose (total - 1) (n - 1) ≤ k →
        kth_n_integer_composition total n k = none)
    ∧ (∀ total k : Nat, 1 ≤ k → k < total →
        kth_n_integer_composition total 1 k = some [total - k]
          ∧ [total - k].sum ≠ total)
    ∧ (∀ total k : Nat, total ≤ k → kth_n_integer_composition total 1 k = none)
    ∧ (∀ total n k : Nat, 1 ≤ n → n ≤ total →
        k < Nat.choose (total - 1) (n - 1) →
        ∃ l, kth_n_integer_composition total n k = some l
          ∧ l.length = n ∧ l.sum = total ∧ ∀ x ∈ l, 1 ≤ x) := by
  refine ⟨fun α => kth_n_combination_error, fun α => kth_n_combination_isOk,
    ?_, ?_, ?_, ?_⟩
  · intro total n k h2 hk
    obtain ⟨m, rfl⟩ : ∃ m, n = m + 2 := ⟨n - 2, by omega⟩
    have h3 : m + 2 - 1 = m + 1 := by omega
    rw [h3] at hk
    exact kth_n_integer_composition_none m total k hk
  · intro total k h1 h2
    rw [kth_n_integer_composition_one, if_pos h2]
    refine ⟨rfl, ?_⟩
    simp only [List.sum_cons, List.sum_nil]
    omega
  · intro total k h
    rw [kth_n_integer_composition_one, if_neg (by omega)]
  · intro total n k h1 h2 hk
    have hklen : k < (compositionsDesc total n).length := by
      rw [compositionsDesc_length n total h1]
      exact hk
    refine ⟨(compositionsDesc total n).get ⟨k, hklen⟩,
      kth_n_integer_composition_get total n k h1 h2 hklen, ?_⟩
    exact (mem_compositionsDesc n total h1 (by omega) _).1 (List.get_mem _ k hklen)

theorem c7_amended_witness :
    kth_n_combination [0, 1, 2] 2 3
      = .error "IndexError: there are not that many combinations"
    ∧ (kth_n_combination [0, 1, 2] 2 2).isOk = true
    ∧ kth_n_integer_composition 4 2 3 = none
    ∧ (kth_n_integer_composition 3 1 1 = some [3 - 1] ∧ [3 - 1].sum ≠ 3)
    ∧ kth_n_integer_composition 3 1 3 = none
    ∧ ∃ l, kth_n_integer_composition 4 2 1 = some l
        ∧ l.length = 2 ∧ l.sum = 4 ∧ ∀ x ∈ l, 1 ≤ x :=
  ⟨c7_amended.1 Nat [0, 1, 2] 2 3 (by decide) (by decide),
   c7_amended.2.1 Nat [0, 1, 2] 2 2 (by decide),
   c7_amended.2.2.1 4 2 3 (by decide) (by decide),
   c7_amended.2.2.2.1 3 1 (by decide) (by decide),
   c7_amended.2.2.2.2.1 3 3 (by decide),
   c7_amended.2.2.2.2.2 4 2 1 (by decide) (by decide) (by decide)⟩

/-! ## Claim C8: the compositions enumerator -/

/-- Claim C8 counterexample: `compositions(3, 2)` enumerates
`(2,1), (1,2)` -- the first parts descend, so the order is not
lexicographic by first part ascending, and the first element is not
fixed by the recursion (the last is). -/
theorem c8_counterexample :
    integer_compositions 3 2 = [[2, 1], [1, 2]]
    ∧ ¬ (integer_compositions 3 2).Pairwise
        (fun a b => a.headD 0 ≤ b.headD 0) :=
  ⟨by decide, by decide⟩

/-- Claim C8 amended: for n ≥ 1 and 1 ≤ k ≤ n, `compositions(n, k)`
yields exactly `choose(n-1, k-1)` tuples, each consisting of k positive
integers summing to n, with no duplicates -- but the order is
lexicographic on the *reversed* tuples (last part ascending: the
recursion fixes the last element and recurses on the remainder). -/
theorem c8_amended (n k : Nat) (h1 : 1 ≤ k) (h2 : k ≤ n) :
    (integer_compositions n k).length = Nat.choose (n - 1) (k - 1)
    ∧ (∀ l, l ∈ integer_compositions n k ↔
        l.length = k ∧ l.sum = n ∧ ∀ x ∈ l, 1 ≤ x)
    ∧ (integer_compositions n k).Nodup
    ∧ (integer_compositions n k).Pairwise
        (fun a b => List.Lex (· < ·) a.reverse b.reverse) :=
  ⟨integer_compositions_length k n h1,
   fun l => mem_integer_compositions k n (by omega) l,
   integer_compositions_nodup k n,
   integer_compositions_pairwise k n⟩

theorem c8_amended_witness :
    (integer_compositions 4 2).length = Nat.choose (4 - 1) (2 - 1)
    ∧ (integer_compositions 4 2).Nodup :=
  ⟨(c8_amended 4 2 (by decide) (by decide)).1,
   (c8_amended 4 2 (by decide) (by decide)).2.2.1⟩

/-! ## Claim C9: unranking round-trips -/

/-- Unranking every rank 0..count-1 reproduces the
`itertools.combinations` enumeration pointwise (hence as a set). -/
theorem kth_n_combination_map_range {α : Type} (items : List α) (n : Nat) :
    (List.range (Nat.choose items.length n)).map
        (fun r => kth_n_combination items n r)
      = (combosList n items).map Except.ok := by
  apply List.ext_get
  · simp [combosList_length]
  · intro i h1 h2
    have hi : i < Nat.choose items.length n := by
      simpa using h1
    have hicl : i < (combosList n items).length := by
      rw [combosList_length]
      exact hi
    rw [List.get_eq_getElem, List.get_eq_getElem, List.getElem_map,
      List.getElem_map, List.getElem_range]
    rw [kth_n_combination_getElem items n i hi]
    have hmap : i < ((combosList n items).map
        (Except.ok : List α → Except String (List α))).length := by
      rw [List.length_map]
      exact hicl
    rw [List.getElem?_eq_getElem hmap]
    simp only [Option.getD_some]
    rw [List.getElem_map]

/-- Claim C9 counterexample: with a duplicated item list the combination
unranker maps two distinct in-range ranks to the same combination, so the
round-trip is not duplicate-free for every item list. -/
theorem c9_counterexample :
    Nat.choose 2 1 = 2
    ∧ kth_n_combination [5, 5] 1 0 = .ok [5]
    ∧ kth_n_combination [5, 5] 1 1 = .ok [5] :=
  ⟨by decide, rfl, rfl⟩

/-- Claim C9 amended: for a *duplicate-free* item list, unranking all
ranks 0..choose(len,k)-1 reproduces exactly the combination enumeration
(pointwise, hence as a set, with no duplicates); and for every
total ≥ parts ≥ 1, the set of unranked compositions over all ranks
0..C(total-1,parts-1)-1 equals the set produced by the compositions
enumerator, no two ranks unranking to the same composition. -/
theorem c9_amended :
    (∀ (α : Type) (items : List α) (n : Nat), items.Nodup →
        ((List.range (Nat.choose items.length n)).map
            (fun r => kth_n_combination items n r)
          = (combosList n items).map Except.ok)
        ∧ (combosList n items).Nodup)
    ∧ (∀ total n : Nat, 1 ≤ n → n ≤ total →
        (∀ l, (∃ r, r < Nat.choose (total - 1) (n - 1)
              ∧ kth_n_integer_composition total n r = some l)
          ↔ l ∈ integer_compositions total n)
        ∧ (integer_compositions total n).Nodup
        ∧ (∀ r1 r2, r1 < Nat.choose (total - 1) (n - 1)
            → r2 < Nat.choose (total - 1) (n - 1)
            → kth_n_integer_composition total n r1
              = kth_n_integer_composition total n r2
            → r1 = r2)) := by
  constructor
  · intro α items n hnd
    exact ⟨kth_n_combination_map_range items n, combosList_nodup items n hnd⟩
  · intro total n h1 h2
    have htot : 1 ≤ total := by omega
    refine ⟨?_, integer_compositions_nodup n total, ?_⟩
    · intro l
      constructor
      · rintro ⟨r, hr, hsome⟩
        have hrlen : r < (compositionsDesc total n).length := by
          rw [compositionsDesc_length n total h1]
          exact hr
        rw [kth_n_integer_composition_get total n r h1 h2 hrlen] at hsome
        have hmem : l ∈ compositionsDesc total n := by
          rw [← Option.some_inj.1 hsome]
          exact List.get_mem _ r hrlen
        exact (mem_integer_compositions n total htot l).2
          ((mem_compositionsDesc n total h1 htot l).1 hmem)
      · intro hmem
        have hmemd : l ∈ compositionsDesc total n :=
          (mem_compositionsDesc n total h1 htot l).2
            ((mem_integer_compositions n total htot l).1 hmem)
        obtain ⟨r, hget⟩ := List.mem_iff_get.1 hmemd
        refine ⟨r.1, ?_, ?_⟩
        · have hlen := compositionsDesc_length n total h1
          have hr := r.isLt
          omega
        · rw [kth_n_integer_composition_get total n r.1 h1 h2 r.isLt]
          exact congrArg some hget
    · intro r1 r2 hr1 hr2 heq
      have hl1 : r1 < (compositionsDesc total n).length := by
        rw [compositionsDesc_length n total h1]; exact hr1
      have hl2 : r2 < (compositionsDesc total n).length := by
        rw [compositionsDesc_length n total h1]; exact hr2
      rw [kth_n_integer_composition_get total n r1 h1 h2 hl1,
        kth_n_integer_composition_get total n r2 h1 h2 hl2] at heq
      have hget : (compositionsDesc total n).get ⟨r1, hl1⟩
          = (compositionsDesc total n).get ⟨r2, hl2⟩ :=
        Option.some_inj.1 heq
      have := (List.Nodup.get_inj_iff (compositionsDesc_nodup n total)).1 hget
      exact congrArg Fin.val this

theorem c9_amended_witness :
    ((List.range (Nat.choose 3 2)).map (fun r => kth_n_combination [0, 1, 2] 2 r)
      = (combosList 2 [0, 1, 2]).map Except.ok)
    ∧ (integer_compositions 4 2).Nodup :=
  ⟨((c9_amended.1 Nat [0, 1, 2] 2 (by decide)).1),
   (c9_amended.2 4 2 (by decide) (by decide)).2.1⟩

/-! ## Game model: embedding of `src/risk.py`

Territory owners are stored as player *names* (`Option String`).  In the
Python code a territory owner is a reference to the `Player` object held
in the state's player list; since player names are unique keys of the
data model, comparing owners by name is equivalent to Python's
`Player.__eq__` (name, cards, reinforcements) on these shared references.
Troop and reinforcement counts are `Int` because the Python code can
drive them negative (it subtracts without clamping). -/

inductive Card
  | infantry
  | cavalry
  | artillery
deriving DecidableEq

structure Player where
  name : String
  cards : List Card
  reinforcements : Int
deriving DecidableEq

structure Territory where
  name : String
  neighbors : List String
  owner : Option String
  troops : Int
deriving DecidableEq

structure Continent where
  name : String
  bonus : Int
  territories : List String
deriving DecidableEq

structure Board where
  territories : List Territory
  continents : List Continent
deriving DecidableEq

/-- One variant per `State` subclass of src/risk.py; `attack` carries the
`occupied` flag of `AttackState.__init__`. -/
inductive Phase
  | prePlace
  | preAssign
  | place
  | attack (occupied : Bool)
  | fortify
  | terminal
deriving DecidableEq

structure GameState where
  phase : Phase
  board : Board
  players : List Player
  currentPlayerI : Nat
  cardTurnins : Nat
deriving DecidableEq

/-- Python `Move` namedtuples (src/risk.py lines 660-667), one variant
per action kind.  `Place` carries territory records (the enumerator
yields `Territory` objects) and the troop tuple. -/
inductive RiskAction
  | prePlaceAct (territory : String)
  | preAssignAct (territory : String)
  | placeAct (territories : List Territory) (troops : List Nat)
  | attackAct (fromTerritory toTerritory : String) (troops : Int)
  | dontAttack
  | fortifyAct (fromTerritory toTerritory : String) (troops : Int)
  | dontFortify
deriving DecidableEq

/-- Dictionary lookup `board.territories[name]` as an `Option`. -/
def Board.territory? (b : Board) (name : String) : Option Territory :=
  b.territories.find? (fun t => t.name == name)

/-- `Board.troops` (src/risk.py lines 502-508). -/
def Board.troops? (b : Board) (name : String) : Option Int :=
  (b.territory? name).map (fun t => t.troops)

/-- `Board.owner` (src/risk.py lines 510-516): `none` for an unknown
territory (Python KeyError), otherwise the stored owner. -/
def Board.ownerName? (b : Board) (name : String) : Option (Option String) :=
  (b.territory? name).map (fun t => t.owner)

/-- `Board.territories_owned` (src/risk.py lines 518-525): territories
whose owner is non-null and named `player`, in board iteration order. -/
def Board.territoriesOwned (b : Board) (player : String) : List Territory :=
  b.territories.filter (fun t => t.owner == some player)

/-- `Territory.neighbors` via `Board.neighbors` (src/risk.py lines
536-542). -/
def Board.neighborNames? (b : Board) (name : String) : Option (List String) :=
  (b.territory? name).map (fun t => t.neighbors)

/-- `Continent.owner` (src/risk.py lines 611-616): the common owner value
of all member territories when that value is unique, else `None`.  Member
names are resolved against the board (the Python continent holds shared
references to the same territory records). -/
def Board.continentOwner (b : Board) (c : Continent) : Option String :=
  match c.territories with
  | [] => none
  | t0 :: rest =>
    let o0 := (b.territory? t0).bind (fun t => t.owner)
    if rest.all (fun tn => (b.territory? tn).bind (fun t => t.owner) == o0) then o0
    else none

/-- `Board.continents_owned` (src/risk.py lines 527-534). -/
def Board.continentsOwned (b : Board) (player : String) : List Continent :=
  b.continents.filter (fun c => b.continentOwner c == some player)

/-- `RiskState.calculate_reinforcements` (src/risk.py lines 159-171):
`max(3, ownedCount // 3 + sum of owned continent bonuses)`. -/
def calculateReinforcements (b : Board) (player : String) : Int :=
  max 3 (((b.territoriesOwned player).length : Int) / 3
    + ((b.continentsOwned player).map (fun c => c.bonus)).sum)

/-- In-place update of the unique dictionary entry named `name`. -/
def Board.modifyTerritory (b : Board) (name : String)
    (f : Territory → Territory) : Board :=
  { b with territories :=
      b.territories.map (fun t => if t.name == name then f t else t) }

def Board.addTroops (b : Board) (name : String) (delta : Int) : Board :=
  b.modifyTerritory name (fun t => { t with troops := t.troops + delta })

def Board.setTroops (b : Board) (name : String) (v : Int) : Board :=
  b.modifyTerritory name (fun t => { t with troops := v })

def Board.setOwner (b : Board) (name : String) (o : Option String) : Board :=
  b.modifyTerritory name (fun t => { t with owner := o })

/-- Point update of the player list entry at index `i`. -/
def updateAt {α : Type} : Nat → (α → α) → List α → List α
  | _, _, [] => []
  | 0, f, x :: xs => f x :: xs
  | i + 1, f, x :: xs => x :: updateAt i f xs

theorem updateAt_length {α : Type} :
    ∀ (i : Nat) (f : α → α) (l : List α), (updateAt i f l).length = l.length := by
  intro i f l
  induction l generalizing i with
  | nil => cases i <;> rfl
  | cons x xs ih =>
    match i with
    | 0 => rfl
    | j + 1 =>
      rw [updateAt, List.length_cons, List.length_cons, ih j]

theorem updateAt_getElem?_ne {α : Type} :
    ∀ (i j : Nat) (f : α → α) (l : List α), j ≠ i →
      (updateAt i f l)[j]? = l[j]? := by
  intro i j f l
  induction l generalizing i j with
  | nil => intro _; cases i <;> rfl
  | cons x xs ih =>
    intro hij
    match i, j with
    | 0, 0 => omega
    | 0, jj + 1 =>
      rw [updateAt, List.getElem?_cons_succ, List.getElem?_cons_succ]
    | ii + 1, 0 =>
      rw [updateAt, List.getElem?_cons_zero, List.getElem?_cons_zero]
    | ii + 1, jj + 1 =>
      rw [updateAt, List.getElem?_cons_succ, List.getElem?_cons_succ]
      exact ih ii jj (by omega)

theorem updateAt_getElem?_self {α : Type} :
    ∀ (i : Nat) (f : α → α) (l : List α),
      (updateAt i f l)[i]? = (l[i]?).map f := by
  intro i f l
  induction l generalizing i with
  | nil => cases i <;> rfl
  | cons x xs ih =>
    match i with
    | 0 =>
      rw [updateAt]
      simp
    | j + 1 =>
      rw [updateAt, List.getElem?_cons_succ, List.getElem?_cons_succ]
      exact ih j

/-- `RiskState.__init__` (src/risk.py lines 50-72) on an already-built
player list: fewer than 1 player raises `ValueError`, an index at or past
the player count raises `IndexError`, and the stored index is taken
modulo the player count. -/
def mkState (phase : Phase) (board : Board) (players : List Player)
    (currentPlayerI : Nat) (cardTurnins : Nat) : Except String GameState :=
  if players.length < 1 then
    .error "ValueError: at least 1 player is needed"
  else if currentPlayerI ≥ players.length then
    .error "IndexError: current_player_i must be <= len(players)"
  else
    .ok ⟨phase, board, players, currentPlayerI % players.length, cardTurnins⟩

def GameState.currentPlayer? (s : GameState) : Option Player :=
  s.players[s.currentPlayerI]?

/-! ### FortifyState.available_actions (claim C1) -/

/-- Python `Territory.__eq__` (src/risk.py lines 573-579) evaluated
against a `str` operand: the body accesses `other.name`, `other.neighbors`
etc.; on a `str` the attribute access raises `AttributeError`, which the
surrounding `try/except AttributeError: return False` turns into `False`.
(The reflected `str.__eq__` likewise returns NotImplemented/False.)  So
the comparison of a `Territory` with a `str` is always `False`, whatever
the names are. -/
def territoryEqPyStr (_t : Territory) (_s : String) : Bool :=
  false

/-- `FortifyState.available_actions` (src/risk.py lines 433-447).
`terrs_owned` is a set of `Territory` records; the filter
`if dest in terrs_owned` asks whether the *string* `dest` is a member of
that set of records, which Python answers with `Territory.__eq__`
against a `str` -- always `False` (`territoryEqPyStr`).  The inner
troop range is `range(1, troops(source) - 1)`. -/
def fortifyAvailableActions (s : GameState) : List RiskAction :=
  match s.currentPlayer? with
  | none => [.dontFortify]
  | some cur =>
    let terrsOwned := s.board.territoriesOwned cur.name
    (terrsOwned.flatMap fun source =>
      source.neighbors.flatMap fun dest =>
        if terrsOwned.any (fun t => territoryEqPyStr t dest) then
          (List.range' 1 ((source.troops - 2).toNat)).map
            (fun n => RiskAction.fortifyAct source.name dest (n : Int))
        else [])
    ++ [.dontFortify]

/-! ### PreAssignState.transition (claim C2) -/

/-- `PreAssignState.transition` (src/risk.py lines 246-265) applied to a
`PreAssign(territory)` action.  Validation: the territory's owner name
must equal the current player's name (an unowned territory would raise
`AttributeError` from `None.name`, an unknown one `KeyError`).  Then one
troop is added, one reinforcement subtracted; if any player still has
non-zero reinforcements the phase stays `PreAssign` with the next player,
otherwise `self.next_player` -- the player at `(i + 1) % len(players)`,
*not* the player at index 0 -- is credited with
`calculate_reinforcements` and a `Place` state with current-player index
0 is returned. -/
def decrReinforcements (players : List Player) (i : Nat) : List Player :=
  updateAt i (fun p => { p with reinforcements := p.reinforcements - 1 }) players

def creditReinforcements (players : List Player) (i : Nat) (amount : Int) :
    List Player :=
  updateAt i (fun p => { p with reinforcements := p.reinforcements + amount })
    players

def preAssignTransition (s : GameState) (terrName : String) :
    Except String GameState :=
  match s.currentPlayer? with
  | none => .error "IndexError: list index out of range"
  | some cur =>
    match s.board.ownerName? terrName with
    | none => .error "KeyError: unknown territory"
    | some none => .error "AttributeError: NoneType object has no attribute"
    | some (some ownerName) =>
      if ownerName ≠ cur.name then
        .error "ValueError: can only place troops on territories you own"
      else
        if (decrReinforcements s.players s.currentPlayerI).any
            (fun p => p.reinforcements ≠ 0) then
          mkState .preAssign (s.board.addTroops terrName 1)
            (decrReinforcements s.players s.currentPlayerI)
            ((s.currentPlayerI + 1) % s.players.length) s.cardTurnins
        else
          match (decrReinforcements s.players s.currentPlayerI)[(s.currentPlayerI + 1) % s.players.length]? with
          | none => .error "IndexError: list index out of range"
          | some nxt =>
            mkState .place (s.board.addTroops terrName 1)
              (creditReinforcements (decrReinforcements s.players s.currentPlayerI)
                ((s.currentPlayerI + 1) % s.players.length)
                (calculateReinforcements (s.board.addTroops terrName 1) nxt.name))
              0 s.cardTurnins

/-! ### AttackState (claims C3, C4, C6) -/

/-- `AttackState.available_actions` (src/risk.py lines 347-362):
`Attack(owned, neighbor, troops)` for every owned territory, every
neighbor whose owner is a different player, and every troop count in
`range(2, troops(owned))`, plus `DontAttack`.  (A neighbor with no owner
would raise `AttributeError` in Python; that cannot happen once the
claiming phase is over, and is embedded as contributing no actions.) -/
def attackAvailableActions (s : GameState) : List RiskAction :=
  match s.currentPlayer? with
  | none => [.dontAttack]
  | some cur =>
    ((s.board.territoriesOwned cur.name).flatMap fun owned =>
      owned.neighbors.flatMap fun neighbor =>
        match s.board.ownerName? neighbor with
        | none => []
        | some none => []
        | some (some oname) =>
          if oname ≠ cur.name then
            (List.range' 2 ((owned.troops - 2).toNat)).map
              (fun k => RiskAction.attackAct owned.name neighbor (k : Int))
          else [])
    ++ [.dontAttack]

/-- Insertion into a descending-sorted list; `sortDesc` embeds Python
`sorted(..., reverse=True)` on the dice values. -/
def insertDesc (x : Nat) : List Nat → List Nat
  | [] => [x]
  | y :: ys => if x ≥ y then x :: y :: ys else y :: insertDesc x ys

def sortDesc (l : List Nat) : List Nat :=
  l.foldr insertDesc []

/-- The combat loop of `AttackState.transition` (src/risk.py lines
396-401): for each paired roll, the defender loses a troop when the
attacker rolls strictly higher, otherwise the attacker loses one. -/
def resolveCombat (b : Board) (f t : String) : List (Nat × Nat) → Board
  | [] => b
  | (ar, dr) :: rest =>
    resolveCombat (if ar > dr then b.addTroops t (-1) else b.addTroops f (-1))
      f t rest

/-- The attacker dice of `AttackState.transition`: `troops - 1` values
drawn first from the random stream, sorted descending. -/
def attackerRollsOf (troops : Int) (rng : List Nat) : List Nat :=
  sortDesc (rng.take (troops - 1).toNat)

/-- The defender dice: the next `troopsAt(to)` values of the stream,
sorted descending. -/
def defenderRollsOf (troops d0 : Int) (rng : List Nat) : List Nat :=
  sortDesc ((rng.drop (troops - 1).toNat).take d0.toNat)

/-- The board after the paired combat losses. -/
def combatBoard (b : Board) (fromT toT : String) (troops d0 : Int)
    (rng : List Nat) : Board :=
  resolveCombat b fromT toT
    ((attackerRollsOf troops rng).zip (defenderRollsOf troops d0 rng))

/-- `remaining_troops = len(list(attacker_rolls)) + 1`: the attacker dice
left unconsumed by the `zip`.  `zip` consumes `min` of both counts from
the attacker iterator, plus one extra attacker die when the defender
iterator runs out first. -/
def remainingTroops (troops d0 : Int) (rng : List Nat) : Int :=
  (((attackerRollsOf troops rng).length
      - (min (attackerRollsOf troops rng).length (defenderRollsOf troops d0 rng).length
        + (if (defenderRollsOf troops d0 rng).length < (attackerRollsOf troops rng).length
          then 1 else 0))) + 1 : Nat)

/-- The conquered-territory bookkeeping: transfer ownership to the
attacker, garrison the remaining troops, deduct them from the source. -/
def occupyBoard (b1 : Board) (fromT toT curName : String) (remaining : Int) :
    Board :=
  ((b1.setOwner toT (some curName)).setTroops toT remaining).addTroops fromT
    (-remaining)

/-- The dead `if` of src/risk.py lines 404-408: extend the current player's
hand with the defender's cards when the defender owns zero territories
*on the pre-transfer board* -- the contested territory still counts, so
the condition never holds (proved below). -/
def cardAbsorbPlayers (players : List Player) (iCur : Nat) (b1 : Board)
    (defenderName : String) : List Player :=
  if (b1.territoriesOwned defenderName).length = 0 then
    updateAt iCur
      (fun p => { p with cards := p.cards
        ++ (match players.find? (fun q => q.name == defenderName) with
            | some q => q.cards
            | none => []) })
      players
  else players

/-- The `occupied` flag carried by the incoming Attack state. -/
def phaseOccupied : Phase → Bool
  | .attack o => o
  | _ => false

/-- `AttackState.transition` (src/risk.py lines 364-429) on an
`Attack(fromT, toT, troops)` action.  `rng` is the stream of
`random.randint(1, 6)` results: first `troops - 1` attacker dice, then
(initial defender troop count) defender dice.  After the paired combat,
a conquest (defender territory at 0 troops) checks whether the defender
owns zero territories *before* transferring ownership (so the contested
territory itself still counts), moves `remaining unpaired attacker dice
+ 1` troops (Python `zip` consumed one extra attacker die when the
defender rolled fewer), sets `occupied`, and then either returns a
Terminal state or an Attack state over the players that still own at
least one territory -- built through `RiskState.__init__` and its index
check. -/
def attackTransition (s : GameState) (fromT toT : String) (troops : Int)
    (rng : List Nat) : Except String GameState :=
  match s.currentPlayer? with
  | none => .error "IndexError: list index out of range"
  | some cur =>
    if (s.board.territoriesOwned cur.name).all (fun t => ¬ t.name = fromT) then
      .error "ValueError: you can only attack from territories you own"
    else if (s.board.territoriesOwned cur.name).any (fun t => t.name = toT) then
      .error "ValueError: you cannot attack your own territories"
    else
      match s.board.neighborNames? fromT with
      | none => .error "KeyError: unknown territory"
      | some nbrs =>
        if ¬ toT ∈ nbrs then
          .error "ValueError: you can only attack neighboring territories"
        else if troops < 2 then
          .error "ValueError: you cannot attack with less than 2 troops"
        else
          match s.board.troops? toT with
          | none => .error "KeyError: unknown territory"
          | some defTroops0 =>
            if (combatBoard s.board fromT toT troops defTroops0 rng).troops? toT
                = some 0 then
              match (combatBoard s.board fromT toT troops defTroops0 rng).ownerName? toT with
              | none => .error "KeyError: unknown territory"
              | some none => .error "AttributeError: NoneType object has no attribute"
              | some (some defenderName) =>
                match (cardAbsorbPlayers s.players s.currentPlayerI
                    (combatBoard s.board fromT toT troops defTroops0 rng)
                    defenderName)[s.currentPlayerI]? with
                | none => .error "IndexError: list index out of range"
                | some cur1 =>
                  if (occupyBoard (combatBoard s.board fromT toT troops defTroops0 rng)
                        fromT toT cur.name
                        (remainingTroops troops defTroops0 rng)).territories.all
                      (fun t => t.owner == some cur1.name) then
                    mkState .terminal
                      (occupyBoard (combatBoard s.board fromT toT troops defTroops0 rng)
                        fromT toT cur.name (remainingTroops troops defTroops0 rng))
                      [cur1] 0 s.cardTurnins
                  else
                    mkState (.attack true)
                      (occupyBoard (combatBoard s.board fromT toT troops defTroops0 rng)
                        fromT toT cur.name (remainingTroops troops defTroops0 rng))
                      ((cardAbsorbPlayers s.players s.currentPlayerI
                          (combatBoard s.board fromT toT troops defTroops0 rng)
                          defenderName).filter (fun p =>
                        (occupyBoard (combatBoard s.board fromT toT troops defTroops0 rng)
                          fromT toT cur.name
                          (remainingTroops troops defTroops0 rng)).territories.any
                          (fun t => t.owner == some p.name)))
                      s.currentPlayerI s.cardTurnins
            else
              if (combatBoard s.board fromT toT troops defTroops0 rng).territories.all
                  (fun t => t.owner == some cur.name) then
                mkState .terminal (combatBoard s.board fromT toT troops defTroops0 rng)
                  [cur] 0 s.cardTurnins
              else
                mkState (.attack (phaseOccupied s.phase))
                  (combatBoard s.board fromT toT troops defTroops0 rng)
                  (s.players.filter (fun p =>
                    (combatBoard s.board fromT toT troops defTroops0 rng).territories.any
                      (fun t => t.owner == some p.name)))
                  s.currentPlayerI s.cardTurnins

/-! ### PlaceState action space (claim C5) -/

/-- `PlaceState._action_space_len` (src/risk.py lines 269-278):
`sum over n in range(1, min(numTerritories, numReinforcements)) of
choose(numTerritories, n) * choose(numReinforcements - 1, n - 1)` --
note the *exclusive* upper bound of the Python `range`. -/
def placeActionSpaceLen (s : GameState) : Nat :=
  match s.currentPlayer? with
  | none => 0
  | some cur =>
    let numT := (s.board.territoriesOwned cur.name).length
    let numR := cur.reinforcements
    ((List.range' 1 ((min (numT : Int) numR - 1).toNat)).map
      (fun n => chooseNat numT n * chooseNat (numR - 1).toNat (n - 1))).sum

/-- The `_iter` enumeration of `PlaceState.available_actions`
(src/risk.py lines 301-305): `for n in range(1, max_n)` -- again the
exclusive Python bound, so `n` never reaches
`max_n = min(ownedCount, reinforcements)` -- with
`itertools.combinations` over the owned territories and
`integer_compositions(reinforcements, n)` troop allocations. -/
def placeAvailableActionsIter (s : GameState) : List RiskAction :=
  match s.currentPlayer? with
  | none => []
  | some cur =>
    let territoriesOwned := s.board.territoriesOwned cur.name
    let reinforcements := cur.reinforcements
    let maxN : Int := min (territoriesOwned.length : Int) reinforcements
    (List.range' 1 ((maxN - 1).toNat)).flatMap fun n =>
      (combosList n territoriesOwned).flatMap fun terrs =>
        (integer_compositions reinforcements.toNat n).map fun troops =>
          RiskAction.placeAct terrs troops

/-! ### Board update lemmas -/

theorem find?_map_name_preserving (l : List Territory) (q x : String)
    (f : Territory → Territory) (hf : ∀ t, (f t).name = t.name) :
    (l.map (fun t => if t.name == q then f t else t)).find? (fun t => t.name == x)
      = (l.find? (fun t => t.name == x)).map (fun t => if t.name == q then f t else t) := by
  induction l with
  | nil => rfl
  | cons t ts ih =>
    rw [List.map_cons, List.find?_cons, List.find?_cons]
    have hname : (if t.name == q then f t else t).name = t.name := by
      split
      · exact hf t
      · rfl
    rw [hname]
    by_cases hx : t.name == x
    · rw [hx]
      rfl
    · rw [Bool.eq_false_iff.2 hx]
      exact ih

theorem territory?_modifyTerritory (b : Board) (q x : String)
    (f : Territory → Territory) (hf : ∀ t, (f t).name = t.name) :
    (b.modifyTerritory q f).territory? x
      = (b.territory? x).map (fun t => if t.name == q then f t else t) := by
  unfold Board.territory? Board.modifyTerritory
  exact find?_map_name_preserving b.territories q x f hf

theorem ownerName?_addTroops (b : Board) (q x : String) (d : Int) :
    (b.addTroops q d).ownerName? x = b.ownerName? x := by
  unfold Board.ownerName? Board.addTroops
  rw [territory?_modifyTerritory b q x
    (fun t => { t with troops := t.troops + d }) (fun t => rfl)]
  cases b.territory? x with
  | none => rfl
  | some t =>
    by_cases h : t.name = q
    · simp [h]
    · simp [h]

theorem ownerName?_resolveCombat (f t x : String) :
    ∀ (ps : List (Nat × Nat)) (b : Board),
      (resolveCombat b f t ps).ownerName? x = b.ownerName? x := by
  intro ps
  induction ps with
  | nil => intro b; rfl
  | cons p rest ih =>
    intro b
    match p with
    | (ar, dr) =>
      rw [resolveCombat]
      split
      · rw [ih, ownerName?_addTroops]
      · rw [ih, ownerName?_addTroops]

/-! ## Claim C1: FortifyState.available_actions -/

/-- A Fortify-phase state in which the current player owns two adjacent
territories with 3 troops on each: the specified action space contains
Fortify moves, the code produces none. -/
def c1State : GameState :=
  { phase := .fortify
    board :=
      { territories :=
          [ { name := "T1", neighbors := ["T2"], owner := some "A", troops := 3 }
          , { name := "T2", neighbors := ["T1"], owner := some "A", troops := 3 } ]
        continents := [] }
    players := [{ name := "A", cards := [], reinforcements := 0 }]
    currentPlayerI := 0
    cardTurnins := 0 }

/-- Claim C1 is right about the intended action space and the code is
wrong: because `dest in terrs_owned` compares a neighbor *name* (str)
against a set of `Territory` records -- and `Territory.__eq__` on a str
returns `False` via its `except AttributeError` arm -- the membership
test never succeeds, so `FortifyState.available_actions` is always
exactly `[DontFortify()]`, for *every* state.  At `c1State` the claim
demands `Fortify("T1", "T2", 1)` (n ranges over [1, 3-2]); the code
omits it. -/
theorem c1_code_bug :
    (∀ s : GameState, fortifyAvailableActions s = [RiskAction.dontFortify])
    ∧ fortifyAvailableActions c1State = [RiskAction.dontFortify]
    ∧ (c1State.board.territoriesOwned "A").map (fun t => t.name) = ["T1", "T2"]
    ∧ c1State.board.neighborNames? "T1" = some ["T2"]
    ∧ c1State.board.troops? "T1" = some 3
    ∧ RiskAction.fortifyAct "T1" "T2" 1 ∉ fortifyAvailableActions c1State := by
  have hall : ∀ s : GameState, fortifyAvailableActions s = [RiskAction.dontFortify] := by
    intro s
    unfold fortifyAvailableActions
    cases s.currentPlayer? with
    | none => rfl
    | some cur =>
      simp [territoryEqPyStr]
  refine ⟨hall, hall c1State, by decide, by decide, by decide, ?_⟩
  rw [hall c1State]
  decide

/-! ## Claim C2: the PreAssign-to-Place hand-off -/

/-- A PreAssign state where the all-zero branch is reached while the
current player is *not* at the last index: player A (index 0) places the
final reinforcement. -/
def c2State : GameState :=
  { phase := .preAssign
    board :=
      { territories :=
          [ { name := "T1", neighbors := ["T2"], owner := some "A", troops := 1 }
          , { name := "T2", neighbors := ["T1"], owner := some "B", troops := 1 } ]
        continents := [] }
    players := [{ name := "A", cards := [], reinforcements := 1 }
               , { name := "B", cards := [], reinforcements := 0 }]
    currentPlayerI := 0
    cardTurnins := 0 }

/-- Claim C2 counterexample: at `c2State` the transition reaches the
all-zero branch with current index 0, returns a Place state with
current-player index 0 -- but the player credited with
`calculateReinforcements` is B, the player at index 1 (the `next_player`),
not the new current player at index 0, whose reinforcements stay 0. -/
theorem c2_counterexample :
    preAssignTransition c2State "T1" = .ok
      { phase := .place
        board :=
          { territories :=
              [ { name := "T1", neighbors := ["T2"], owner := some "A", troops := 2 }
              , { name := "T2", neighbors := ["T1"], owner := some "B", troops := 1 } ]
            continents := [] }
        players := [{ name := "A", cards := [], reinforcements := 0 }
                   , { name := "B", cards := [], reinforcements := 3 }]
        currentPlayerI := 0
        cardTurnins := 0 } := rfl

/-- Claim C2 amended: when a PreAssign transition brings every player's
reinforcements to 0, the returned state is a Place state with
current-player index reset to 0, and the player credited with
`calculateReinforcements` is the *next player in turn order* --
`players[(i + 1) % len(players)]` -- which coincides with the player at
index 0 exactly when the current player occupies the last index (as it
always does in round-robin play from a fresh game). -/
theorem c2_amended (s : GameState) (terrName : String) (cur nxt : Player)
    (hcur : s.currentPlayer? = some cur)
    (hown : s.board.ownerName? terrName = some (some cur.name))
    (hzero : (decrReinforcements s.players s.currentPlayerI).all
      (fun p => p.reinforcements = 0) = true)
    (hnxt : (decrReinforcements s.players
        s.currentPlayerI)[(s.currentPlayerI + 1) % s.players.length]?
      = some nxt) :
    preAssignTransition s terrName = .ok
      { phase := .place
        board := s.board.addTroops terrName 1
        players := creditReinforcements
          (decrReinforcements s.players s.currentPlayerI)
          ((s.currentPlayerI + 1) % s.players.length)
          (calculateReinforcements (s.board.addTroops terrName 1) nxt.name)
        currentPlayerI := 0
        cardTurnins := s.cardTurnins }
    ∧ (s.currentPlayerI = s.players.length - 1 →
        (s.currentPlayerI + 1) % s.players.length = 0) := by
  have hlen : s.currentPlayerI < s.players.length := by
    unfold GameState.currentPlayer? at hcur
    exact List.getElem?_eq_some_iff.1 hcur |>.1
  constructor
  · have hany : (decrReinforcements s.players s.currentPlayerI).any
        (fun p => p.reinforcements ≠ 0) = false := by
      rw [List.any_eq_false]
      intro p hp
      have h2 := List.all_eq_true.1 hzero p hp
      simp only [decide_eq_true_eq] at h2
      simp [h2]
    have hlen2 : (creditReinforcements
        (decrReinforcements s.players s.currentPlayerI)
        ((s.currentPlayerI + 1) % s.players.length)
        (calculateReinforcements (s.board.addTroops terrName 1) nxt.name)).length
        = s.players.length := by
      unfold creditReinforcements decrReinforcements
      rw [updateAt_length, updateAt_length]
    simp only [preAssignTransition, hcur, hown, hany, hnxt, mkState, hlen2,
      Bool.false_eq_true, if_false, ne_eq, not_true_eq_false]
    rw [if_neg (by omega), if_neg (by omega), Nat.zero_mod]
  · intro h
    have h2 : s.currentPlayerI + 1 = s.players.length := by omega
    rw [h2, Nat.mod_self]

theorem c2_amended_witness :
    preAssignTransition c2State "T1" = .ok
      { phase := .place
        board :=
          { territories :=
              [ { name := "T1", neighbors := ["T2"], owner := some "A", troops := 2 }
              , { name := "T2", neighbors := ["T1"], owner := some "B", troops := 1 } ]
            continents := [] }
        players := [{ name := "A", cards := [], reinforcements := 0 }
                   , { name := "B", cards := [], reinforcements := 3 }]
        currentPlayerI := 0
        cardTurnins := 0 } :=
  (c2_amended c2State "T1" { name := "A", cards := [], reinforcements := 1 }
    { name := "B", cards := [], reinforcements := 0 } rfl rfl (by decide) rfl).1

/-! ## Claim C5: the Place action space -/

theorem sum_map_const {α : Type} (l : List α) (c : Nat) :
    (l.map (fun _ => c)).sum = l.length * c := by
  induction l with
  | nil => simp
  | cons x xs ih =>
    rw [List.map_cons, List.sum_cons, ih, List.length_cons]
    ring

/-- The Python enumeration `_iter` and the reported
`_action_space_len` agree for every Place state: both range over
`n in range(1, min(owned, reinforcements))` -- the same exclusive
bound. -/
theorem placeIter_length_eq (s : GameState) :
    (placeAvailableActionsIter s).length = placeActionSpaceLen s := by
  unfold placeAvailableActionsIter placeActionSpaceLen
  cases s.currentPlayer? with
  | none => rfl
  | some cur =>
    rw [List.length_flatMap]
    congr 1
    apply List.map_congr_left
    intro n hn
    have hn1 : 1 ≤ n := (List.mem_range'_1.1 hn).1
    simp only [Function.comp_apply]
    rw [List.length_flatMap]
    have hinner : (combosList n (s.board.territoriesOwned cur.name)).map
          (List.length ∘ (fun terrs =>
            (integer_compositions cur.reinforcements.toNat n).map
              (fun troops => RiskAction.placeAct terrs troops)))
        = (combosList n (s.board.territoriesOwned cur.name)).map
          (fun _ => (integer_compositions cur.reinforcements.toNat n).length) := by
      apply List.map_congr_left
      intro terrs _
      simp only [Function.comp_apply, List.length_map]
    rw [hinner, sum_map_const, combosList_length,
      integer_compositions_length n cur.reinforcements.toNat hn1,
      chooseNat_eq_choose, chooseNat_eq_choose]
    congr 2
    omega

/-- A Place state in which the current player owns exactly one territory
and holds 3 reinforcements. -/
def c5State : GameState :=
  { phase := .place
    board :=
      { territories :=
          [ { name := "T1", neighbors := ["T2"], owner := some "A", troops := 1 }
          , { name := "T2", neighbors := ["T1"], owner := some "B", troops := 1 } ]
        continents := [] }
    players := [{ name := "A", cards := [], reinforcements := 3 }
               , { name := "B", cards := [], reinforcements := 0 }]
    currentPlayerI := 0
    cardTurnins := 0 }

/-- Claim C5 is right about the intended action space (n should run up
to min(ownedCount, reinforcements) *inclusive*) and the code is wrong:
both `_iter` and `_action_space_len` use the exclusive Python bound
`range(1, min(...))`, so at `c5State` -- one owned territory, three
reinforcements, min = 1 -- the Place action space is *empty* (the player
cannot move at all), whereas the claim requires the allocation placing
all 3 reinforcements on the single owned territory to be present.  The
reported length does agree with the (truncated) enumeration, on every
state. -/
theorem c5_code_bug :
    placeAvailableActionsIter c5State = []
    ∧ placeActionSpaceLen c5State = 0
    ∧ min ((c5State.board.territoriesOwned "A").length : Int) 3 = 1
    ∧ RiskAction.placeAct (c5State.board.territoriesOwned "A") [3]
        ∉ placeAvailableActionsIter c5State
    ∧ (∀ s : GameState,
        (placeAvailableActionsIter s).length = placeActionSpaceLen s) :=
  ⟨by decide, by decide, by decide, by decide, placeIter_length_eq⟩

/-! ## Claim C4: Attack-phase validation -/

/-- An Attack state: A owns T1 with 2 troops, B owns the neighboring T2
with 1 troop.  The only legal troop commitment from T1 is 2 (that is,
`range(2, 2)` is empty, so no Attack from T1 with 3 troops is offered). -/
def c4State : GameState :=
  { phase := .attack false
    board :=
      { territories :=
          [ { name := "T1", neighbors := ["T2"], owner := some "A", troops := 2 }
          , { name := "T2", neighbors := ["T1"], owner := some "B", troops := 1 } ]
        continents := [] }
    players := [{ name := "A", cards := [], reinforcements := 0 }
               , { name := "B", cards := [], reinforcements := 0 }]
    currentPlayerI := 0
    cardTurnins := 0 }

/-- Claim C4 counterexample: `Attack("T1", "T2", 3)` commits more troops
than `troopsAt("T1") - 1 = 1` and is absent from `availableActions()`,
yet `transition` accepts it -- there is no check of `troops` against the
source garrison -- and resolves combat (T1 drops from 2 troops to 1 on
the losing roll pairing). -/
theorem c4_counterexample :
    RiskAction.attackAct "T1" "T2" 3 ∉ attackAvailableActions c4State
    ∧ c4State.board.troops? "T1" = some 2
    ∧ attackTransition c4State "T1" "T2" 3 [1, 1, 6] = .ok
        { phase := .attack false
          board :=
            { territories :=
                [ { name := "T1", neighbors := ["T2"], owner := some "A", troops := 1 }
                , { name := "T2", neighbors := ["T1"], owner := some "B", troops := 1 } ]
              continents := [] }
          players := [{ name := "A", cards := [], reinforcements := 0 }
                     , { name := "B", cards := [], reinforcements := 0 }]
          currentPlayerI := 0
          cardTurnins := 0 } :=
  ⟨by decide, by decide, rfl⟩

/-- Claim C4 amended: `AttackState.transition` validates exactly four
conditions -- attacking from a non-owned territory, attacking an owned
territory, attacking a non-neighbor, and committing fewer than 2 troops
-- and raises InvalidAction (ValueError) for each; but it never checks
`troopsCommitted` against `troopsAt(from) - 1`, so an overcommitted
Attack that passes those four checks is accepted and combat is resolved
(concretely at `c4State`), even though the action is not in
`availableActions()`. -/
theorem c4_amended :
    (∀ (s : GameState) (fromT toT : String) (troops : Int) (rng : List Nat)
        (cur : Player), s.currentPlayer? = some cur →
      (s.board.territoriesOwned cur.name).all (fun t => ¬ t.name = fromT) = true →
      attackTransition s fromT toT troops rng
        = .error "ValueError: you can only attack from territories you own")
    ∧ (∀ (s : GameState) (fromT toT : String) (troops : Int) (rng : List Nat)
        (cur : Player), s.currentPlayer? = some cur →
      (s.board.territoriesOwned cur.name).all (fun t => ¬ t.name = fromT) = false →
      (s.board.territoriesOwned cur.name).any (fun t => t.name = toT) = true →
      attackTransition s fromT toT troops rng
        = .error "ValueError: you cannot attack your own territories")
    ∧ (∀ (s : GameState) (fromT toT : String) (troops : Int) (rng : List Nat)
        (cur : Player) (nbrs : List String), s.currentPlayer? = some cur →
      (s.board.territoriesOwned cur.name).all (fun t => ¬ t.name = fromT) = false →
      (s.board.territoriesOwned cur.name).any (fun t => t.name = toT) = false →
      s.board.neighborNames? fromT = some nbrs → ¬ toT ∈ nbrs →
      attackTransition s fromT toT troops rng
        = .error "ValueError: you can only attack neighboring territories")
    ∧ (∀ (s : GameState) (fromT toT : String) (troops : Int) (rng : List Nat)
        (cur : Player) (nbrs : List String), s.currentPlayer? = some cur →
      (s.board.territoriesOwned cur.name).all (fun t => ¬ t.name = fromT) = false →
      (s.board.territoriesOwned cur.name).any (fun t => t.name = toT) = false →
      s.board.neighborNames? fromT = some nbrs → toT ∈ nbrs → troops < 2 →
      attackTransition s fromT toT troops rng
        = .error "ValueError: you cannot attack with less than 2 troops")
    ∧ (RiskAction.attackAct "T1" "T2" 3 ∉ attackAvailableActions c4State
      ∧ (attackTransition c4State "T1" "T2" 3 [1, 1, 6]).isOk = true) := by
  refine ⟨?_, ?_, ?_, ?_, by decide, ?_⟩
  · intro s fromT toT troops rng cur hcur hfrom
    simp only [attackTransition, hcur, hfrom, if_true]
  · intro s fromT toT troops rng cur hcur hfrom hto
    simp only [attackTransition, hcur, hfrom, hto, Bool.false_eq_true, if_false,
      if_true]
  · intro s fromT toT troops rng cur nbrs hcur hfrom hto hnb hnotin
    simp only [attackTransition, hcur, hfrom, hto, hnb, Bool.false_eq_true,
      if_false]
    rw [if_pos hnotin]
  · intro s fromT toT troops rng cur nbrs hcur hfrom hto hnb htoin htr
    simp only [attackTransition, hcur, hfrom, hto, hnb, Bool.false_eq_true,
      if_false]
    rw [if_neg (by simp [htoin]), if_pos htr]
  · rw [show attackTransition c4State "T1" "T2" 3 [1, 1, 6] = .ok
        { phase := .attack false
          board :=
            { territories :=
                [ { name := "T1", neighbors := ["T2"], owner := some "A", troops := 1 }
                , { name := "T2", neighbors := ["T1"], owner := some "B", troops := 1 } ]
              continents := [] }
          players := [{ name := "A", cards := [], reinforcements := 0 }
                     , { name := "B", cards := [], reinforcements := 0 }]
          currentPlayerI := 0
          cardTurnins := 0 } from rfl]
    rfl

theorem c4_amended_witness :
    attackTransition c4State "T3" "T2" 2 [6, 1]
      = .error "ValueError: you can only attack from territories you own"
    ∧ attackTransition c4State "T1" "T2" 1 [6, 1]
      = .error "ValueError: you cannot attack with less than 2 troops" :=
  ⟨c4_amended.1 c4State "T3" "T2" 2 [6, 1]
      { name := "A", cards := [], reinforcements := 0 } rfl (by decide),
   c4_amended.2.2.2.1 c4State "T1" "T2" 1 [6, 1]
      { name := "A", cards := [], reinforcements := 0 } ["T2"] rfl (by decide)
      (by decide) rfl (by decide) (by decide)⟩

/-! ### Pointwise structure of the combat and occupation updates -/

theorem mem_addTroops_back {b : Board} {x : String} {d : Int} {u : Territory}
    (hu : u ∈ (b.addTroops x d).territories) :
    ∃ v ∈ b.territories, u.name = v.name ∧ u.owner = v.owner := by
  unfold Board.addTroops Board.modifyTerritory at hu
  simp only [List.mem_map] at hu
  obtain ⟨v, hv, rfl⟩ := hu
  refine ⟨v, hv, ?_⟩
  split <;> exact ⟨rfl, rfl⟩

theorem mem_addTroops_fwd {b : Board} {x : String} {d : Int} {v : Territory}
    (hv : v ∈ b.territories) :
    ∃ u ∈ (b.addTroops x d).territories, u.name = v.name ∧ u.owner = v.owner := by
  unfold Board.addTroops Board.modifyTerritory
  refine ⟨if v.name == x then { v with troops := v.troops + d } else v,
    List.mem_map.2 ⟨v, hv, rfl⟩, ?_⟩
  split <;> exact ⟨rfl, rfl⟩

theorem mem_resolveCombat_back {f t : String} :
    ∀ (ps : List (Nat × Nat)) (b : Board) (u : Territory),
      u ∈ (resolveCombat b f t ps).territories →
      ∃ v ∈ b.territories, u.name = v.name ∧ u.owner = v.owner := by
  intro ps
  induction ps with
  | nil => intro b u hu; exact ⟨u, hu, rfl, rfl⟩
  | cons p rest ih =>
    intro b u hu
    match p with
    | (ar, dr) =>
      rw [resolveCombat] at hu
      by_cases hcmp : ar > dr
      · rw [if_pos hcmp] at hu
        obtain ⟨v, hv, hn, ho⟩ := ih _ u hu
        obtain ⟨w, hw, hn2, ho2⟩ := mem_addTroops_back hv
        exact ⟨w, hw, hn.trans hn2, ho.trans ho2⟩
      · rw [if_neg hcmp] at hu
        obtain ⟨v, hv, hn, ho⟩ := ih _ u hu
        obtain ⟨w, hw, hn2, ho2⟩ := mem_addTroops_back hv
        exact ⟨w, hw, hn.trans hn2, ho.trans ho2⟩

theorem mem_resolveCombat_fwd {f t : String} :
    ∀ (ps : List (Nat × Nat)) (b : Board) (v : Territory),
      v ∈ b.territories →
      ∃ u ∈ (resolveCombat b f t ps).territories,
        u.name = v.name ∧ u.owner = v.owner := by
  intro ps
  induction ps with
  | nil => intro b v hv; exact ⟨v, hv, rfl, rfl⟩
  | cons p rest ih =>
    intro b v hv
    match p with
    | (ar, dr) =>
      rw [resolveCombat]
      by_cases hcmp : ar > dr
      · rw [if_pos hcmp]
        obtain ⟨w, hw, hn2, ho2⟩ := @mem_addTroops_fwd _ t (-1) _ hv
        obtain ⟨u, hu, hn, ho⟩ := ih _ w hw
        exact ⟨u, hu, hn.trans hn2, ho.trans ho2⟩
      · rw [if_neg hcmp]
        obtain ⟨w, hw, hn2, ho2⟩ := @mem_addTroops_fwd _ f (-1) _ hv
        obtain ⟨u, hu, hn, ho⟩ := ih _ w hw
        exact ⟨u, hu, hn.trans hn2, ho.trans ho2⟩

/-- The single-territory transformation applied by `occupyBoard` to every
board entry. -/
def occFun (fromT toT curName : String) (remaining : Int) (v : Territory) :
    Territory :=
  (fun t => if t.name == fromT then { t with troops := t.troops + -remaining } else t)
    ((fun t => if t.name == toT then { t with troops := remaining } else t)
      ((fun t => if t.name == toT then { t with owner := some curName } else t) v))

theorem occupyBoard_territories (b1 : Board) (fromT toT curName : String)
    (remaining : Int) :
    (occupyBoard b1 fromT toT curName remaining).territories
      = b1.territories.map (occFun fromT toT curName remaining) := by
  unfold occupyBoard Board.addTroops Board.setTroops Board.setOwner
    Board.modifyTerritory occFun
  simp only [List.map_map]
  rfl

theorem occFun_name (fromT toT curName : String) (remaining : Int)
    (v : Territory) :
    (occFun fromT toT curName remaining v).name = v.name := by
  cases hb1 : (v.name == toT) <;> cases hb2 : (v.name == fromT) <;>
    simp [occFun, hb1, hb2]

theorem occFun_owner (fromT toT curName : String) (remaining : Int)
    (v : Territory) :
    (occFun fromT toT curName remaining v).owner
      = if v.name = toT then some curName else v.owner := by
  cases hb1 : (v.name == toT) <;> cases hb2 : (v.name == fromT) <;>
    simp [occFun, hb1, hb2] <;>
    first
      | rfl
      | rw [if_neg (by simpa using hb1)]
      | rw [if_pos (by simpa using hb1)]

theorem combatBoard_ownerName? (b : Board) (fromT toT : String)
    (troops d0 : Int) (rng : List Nat) (x : String) :
    (combatBoard b fromT toT troops d0 rng).ownerName? x = b.ownerName? x := by
  unfold combatBoard
  exact ownerName?_resolveCombat fromT toT x _ b

theorem exists_mem_of_ownerName? {b : Board} {x : String} {d : String}
    (h : b.ownerName? x = some (some d)) :
    ∃ tt ∈ b.territories, tt.name = x ∧ tt.owner = some d := by
  unfold Board.ownerName? Board.territory? at h
  cases hf : b.territories.find? (fun t => t.name == x) with
  | none =>
    rw [hf] at h
    simp at h
  | some tt =>
    rw [hf] at h
    simp only [Option.map_some', Option.some_inj] at h
    refine ⟨tt, List.mem_of_find?_eq_some hf, ?_, h⟩
    have := List.find?_some hf
    simpa using this

theorem cardAbsorbPlayers_eq (players : List Player) (iCur : Nat) (b1 : Board)
    (d : String) (h : ∃ tt ∈ b1.territories, tt.owner = some d) :
    cardAbsorbPlayers players iCur b1 d = players := by
  obtain ⟨tt, htt, howner⟩ := h
  unfold cardAbsorbPlayers
  rw [if_neg]
  intro hlen
  have hmem : tt ∈ b1.territoriesOwned d := by
    unfold Board.territoriesOwned
    exact List.mem_filter.2 ⟨htt, by simp [howner]⟩
  rw [List.length_eq_zero.1 hlen] at hmem
  exact List.not_mem_nil tt hmem

theorem mkState_players {ph : Phase} {b : Board} {pl : List Player}
    {i ct : Nat} {st : GameState} (h : mkState ph b pl i ct = .ok st) :
    st.players = pl ∧ st.phase = ph := by
  unfold mkState at h
  split at h
  · exact absurd h (by simp)
  · split at h
    · exact absurd h (by simp)
    · cases h
      exact ⟨rfl, rfl⟩

theorem mkState_index_error {ph : Phase} {b : Board} {pl : List Player}
    {i ct : Nat} (h1 : 1 ≤ pl.length) (h2 : pl.length ≤ i) :
    mkState ph b pl i ct
      = .error "IndexError: current_player_i must be <= len(players)" := by
  unfold mkState
  rw [if_neg (by omega), if_pos (by omega)]

theorem eq_of_name_eq_of_nodup {l : List Territory}
    (h : (l.map (fun t => t.name)).Nodup) {u v : Territory}
    (hu : u ∈ l) (hv : v ∈ l) (hn : u.name = v.name) : u = v :=
  List.inj_on_of_nodup_map h hu hv hn

/-! ## Claim C3: elimination and card absorption -/

/-- No execution of `AttackState.transition` ever modifies a player
record: the card-absorption branch tests the defender's territory count
*before* ownership of the contested territory is transferred, so the
defender still owns that territory and the branch is dead; every player
of the successor state is a player record of the input state,
unchanged. -/
theorem attackTransition_players_mem :
    ∀ (s : GameState) (fromT toT : String) (troops : Int) (rng : List Nat)
      (st : GameState), attackTransition s fromT toT troops rng = .ok st →
      ∀ p ∈ st.players, p ∈ s.players := by
  intro s fromT toT troops rng st hok p hp
  unfold attackTransition at hok
  split at hok
  · exact absurd hok (by simp)
  rename_i cur hcur
  unfold GameState.currentPlayer? at hcur
  split at hok
  · exact absurd hok (by simp)
  split at hok
  · exact absurd hok (by simp)
  split at hok
  · exact absurd hok (by simp)
  rename_i nbrs hnb
  split at hok
  · exact absurd hok (by simp)
  split at hok
  · exact absurd hok (by simp)
  split at hok
  · exact absurd hok (by simp)
  rename_i d0 hd0
  split at hok
  · -- conquest branch
    split at hok
    · exact absurd hok (by simp)
    · exact absurd hok (by simp)
    rename_i dname hdn
    have habs : cardAbsorbPlayers s.players s.currentPlayerI
        (combatBoard s.board fromT toT troops d0 rng) dname = s.players := by
      apply cardAbsorbPlayers_eq
      obtain ⟨tt, httm, _, hto2⟩ := exists_mem_of_ownerName? hdn
      exact ⟨tt, httm, hto2⟩
    rw [habs] at hok
    split at hok
    · exact absurd hok (by simp)
    rename_i cur1 hcur1
    split at hok
    · obtain ⟨hpl, _⟩ := mkState_players hok
      rw [hpl] at hp
      have hpc : p = cur1 := by simpa using hp
      subst hpc
      exact List.getElem?_mem hcur1
    · obtain ⟨hpl, _⟩ := mkState_players hok
      rw [hpl] at hp
      exact (List.mem_filter.1 hp).1
  · -- no conquest
    split at hok
    · obtain ⟨hpl, _⟩ := mkState_players hok
      rw [hpl] at hp
      have hpc : p = cur := by simpa using hp
      subst hpc
      exact List.getElem?_mem hcur
    · obtain ⟨hpl, _⟩ := mkState_players hok
      rw [hpl] at hp
      exact (List.mem_filter.1 hp).1

/-- An Attack state with three players: A (current, index 0) attacks the
single territory of B, who holds one card; C owns a third territory. -/
def c3State : GameState :=
  { phase := .attack false
    board :=
      { territories :=
          [ { name := "TA", neighbors := ["TB"], owner := some "A", troops := 3 }
          , { name := "TB", neighbors := ["TA"], owner := some "B", troops := 1 }
          , { name := "TC", neighbors := [], owner := some "C", troops := 1 } ]
        continents := [] }
    players := [{ name := "A", cards := [], reinforcements := 0 }
               , { name := "B", cards := [Card.infantry], reinforcements := 0 }
               , { name := "C", cards := [], reinforcements := 0 }]
    currentPlayerI := 0
    cardTurnins := 0 }

/-- Claim C3 is right about the intended behaviour (spec: absorb the
eliminated defender's cards into the attacker's hand) and the code is
wrong: the zero-territories test runs before ownership transfer, when
the defender still owns the contested territory, so it never fires.  At
`c3State`, A eliminates B (who holds an Infantry card): B *is* removed
from the player sequence, but A's hand stays empty and B's card
vanishes.  The first conjunct proves the card transfer is dead code on
every input. -/
theorem c3_code_bug :
    (∀ (s : GameState) (fromT toT : String) (troops : Int) (rng : List Nat)
        (st : GameState), attackTransition s fromT toT troops rng = .ok st →
        ∀ p ∈ st.players, p ∈ s.players)
    ∧ c3State.players.map (fun p => p.cards) = [[], [Card.infantry], []]
    ∧ attackTransition c3State "TA" "TB" 2 [6, 1] = .ok
        { phase := .attack true
          board :=
            { territories :=
                [ { name := "TA", neighbors := ["TB"], owner := some "A", troops := 2 }
                , { name := "TB", neighbors := ["TA"], owner := some "A", troops := 1 }
                , { name := "TC", neighbors := [], owner := some "C", troops := 1 } ]
              continents := [] }
          players := [{ name := "A", cards := [], reinforcements := 0 }
                     , { name := "C", cards := [], reinforcements := 0 }]
          currentPlayerI := 0
          cardTurnins := 0 } :=
  ⟨attackTransition_players_mem, by decide, rfl⟩

theorem c3_code_bug_witness :
    ({ name := "A", cards := [], reinforcements := 0 } : Player)
      ∈ c3State.players :=
  c3_code_bug.1 c3State "TA" "TB" 2 [6, 1]
    { phase := .attack true
      board :=
        { territories :=
            [ { name := "TA", neighbors := ["TB"], owner := some "A", troops := 2 }
            , { name := "TB", neighbors := ["TA"], owner := some "A", troops := 1 }
            , { name := "TC", neighbors := [], owner := some "C", troops := 1 } ]
          continents := [] }
      players := [{ name := "A", cards := [], reinforcements := 0 }
                 , { name := "C", cards := [], reinforcements := 0 }]
      currentPlayerI := 0
      cardTurnins := 0 } rfl
    { name := "A", cards := [], reinforcements := 0 } (by decide)

/-! ## Claim C6: elimination at the last player index -/

theorem mem_combatBoard_back {b : Board} {fromT toT : String} {troops d0 : Int}
    {rng : List Nat} {u : Territory}
    (hu : u ∈ (combatBoard b fromT toT troops d0 rng).territories) :
    ∃ v ∈ b.territories, u.name = v.name ∧ u.owner = v.owner := by
  unfold combatBoard at hu
  exact mem_resolveCombat_back _ _ _ hu

theorem mem_combatBoard_fwd {b : Board} {fromT toT : String} {troops d0 : Int}
    {rng : List Nat} {v : Territory} (hv : v ∈ b.territories) :
    ∃ u ∈ (combatBoard b fromT toT troops d0 rng).territories,
      u.name = v.name ∧ u.owner = v.owner := by
  unfold combatBoard
  exact mem_resolveCombat_fwd _ _ _ hv

/-- Claim C6 confirmed: when an Attack conquers the defending player's
last territory while the current player sits at the last index of the
player sequence and some third player still owns a territory, the
successor `AttackState` is built over a player list from which the
defender has been removed, and `RiskState.__init__` raises IndexError,
because the unchanged `current_player_i` now equals or exceeds the
shrunken player count -- even though the action was a legal one from
`availableActions()` (the witness instantiates it with one). -/
theorem c6_elimination_index_error
    (s : GameState) (fromT toT : String) (troops : Int) (rng : List Nat)
    (cur pd : Player) (nbrs : List String) (d0 : Int) (dname : String)
    (u3 : Territory)
    (hnames : (s.board.territories.map (fun t => t.name)).Nodup)
    (hcur : s.currentPlayer? = some cur)
    (hlast : s.currentPlayerI = s.players.length - 1)
    (hfrom : (s.board.territoriesOwned cur.name).all
      (fun t => ¬ t.name = fromT) = false)
    (hto : (s.board.territoriesOwned cur.name).any
      (fun t => t.name = toT) = false)
    (hnb : s.board.neighborNames? fromT = some nbrs)
    (htoin : toT ∈ nbrs)
    (htr : 2 ≤ troops)
    (hd0 : s.board.troops? toT = some d0)
    (howner : s.board.ownerName? toT = some (some dname))
    (hpd : pd ∈ s.players) (hpdname : pd.name = dname)
    (helim : ∀ u ∈ s.board.territories, u.owner = some dname → u.name = toT)
    (hu3 : u3 ∈ s.board.territories)
    (hu3c : u3.owner ≠ some cur.name) (hu3d : u3.owner ≠ some dname)
    (hconq : (combatBoard s.board fromT toT troops d0 rng).troops? toT
      = some 0) :
    attackTransition s fromT toT troops rng
      = .error "IndexError: current_player_i must be <= len(players)" := by
  obtain ⟨tt, httm, httn, htto⟩ := exists_mem_of_ownerName? howner
  have hdc : dname ≠ cur.name := by
    intro he
    have htt2 : tt ∈ s.board.territoriesOwned cur.name := by
      unfold Board.territoriesOwned
      refine List.mem_filter.2 ⟨httm, ?_⟩
      rw [htto, he]
      simp
    have : (s.board.territoriesOwned cur.name).any (fun t => t.name = toT)
        = true :=
      List.any_eq_true.2 ⟨tt, htt2, by simp [httn]⟩
    rw [this] at hto
    exact Bool.noConfusion hto
  have hcowner : (combatBoard s.board fromT toT troops d0 rng).ownerName? toT
      = some (some dname) := by
    rw [combatBoard_ownerName?]
    exact howner
  obtain ⟨tc, htcm, htcn, htco⟩ := exists_mem_of_ownerName? hcowner
  have hilen : s.currentPlayerI < s.players.length := by
    unfold GameState.currentPlayer? at hcur
    exact List.getElem?_eq_some_iff.1 hcur |>.1
  -- u3's name is not toT (unique names)
  have hu3n : u3.name ≠ toT := by
    intro he
    have : u3 = tt := eq_of_name_eq_of_nodup hnames hu3 httm (he.trans httn.symm)
    rw [this, htto] at hu3d
    exact hu3d rfl
  -- the terminal check is false at the occupied board
  have hallf : (occupyBoard (combatBoard s.board fromT toT troops d0 rng)
      fromT toT cur.name (remainingTroops troops d0 rng)).territories.all
      (fun t => t.owner == some cur.name) = false := by
    obtain ⟨v, hv, hvn, hvo⟩ :=
      @mem_combatBoard_fwd s.board fromT toT troops d0 rng u3 hu3
    rw [List.all_eq_false]
    refine ⟨occFun fromT toT cur.name (remainingTroops troops d0 rng) v, ?_, ?_⟩
    · rw [occupyBoard_territories]
      exact List.mem_map.2 ⟨v, hv, rfl⟩
    · rw [occFun_owner, if_neg (fun h => hu3n (hvn.symm.trans h))]
      simp only [beq_iff_eq]
      intro hcontra
      exact hu3c (by rw [← hvo, hcontra])
  -- the defender is dropped by the ownership filter
  have hpdout : ((occupyBoard (combatBoard s.board fromT toT troops d0 rng)
      fromT toT cur.name (remainingTroops troops d0 rng)).territories.any
      (fun t => t.owner == some pd.name)) = false := by
    rw [List.any_eq_false]
    intro w hw
    rw [occupyBoard_territories] at hw
    obtain ⟨v, hv, rfl⟩ := List.mem_map.1 hw
    rw [occFun_owner]
    by_cases hvt : v.name = toT
    · rw [if_pos hvt]
      simp only [beq_iff_eq, Option.some_inj]
      intro hcontra
      exact hdc (by rw [← hpdname, ← hcontra])
    · rw [if_neg hvt]
      obtain ⟨v0, hv0, hv0n, hv0o⟩ := mem_combatBoard_back hv
      simp only [beq_iff_eq]
      intro hcontra
      have : v0.owner = some dname := by
        rw [← hv0o, hcontra, hpdname]
      have := helim v0 hv0 this
      exact hvt (by rw [hv0n, this])
  -- the current player survives the ownership filter
  have hcurin : ((occupyBoard (combatBoard s.board fromT toT troops d0 rng)
      fromT toT cur.name (remainingTroops troops d0 rng)).territories.any
      (fun t => t.owner == some cur.name)) = true := by
    rw [List.any_eq_true]
    refine ⟨occFun fromT toT cur.name (remainingTroops troops d0 rng) tc, ?_, ?_⟩
    · rw [occupyBoard_territories]
      exact List.mem_map.2 ⟨tc, htcm, rfl⟩
    · rw [occFun_owner, if_pos htcn]
      simp
  have hcmem : cur ∈ s.players := by
    unfold GameState.currentPlayer? at hcur
    exact List.getElem?_mem hcur
  -- now evaluate the transition
  have hcur2 : s.players[s.currentPlayerI]? = some cur := by
    unfold GameState.currentPlayer? at hcur
    exact hcur
  have hc1 : (¬ toT ∈ nbrs) = False := by simp [htoin]
  have hc2 : (troops < 2) = False := eq_false (by omega)
  have hc3 : ((combatBoard s.board fromT toT troops d0 rng).troops? toT
      = some 0) = True := eq_true hconq
  have habs : cardAbsorbPlayers s.players s.currentPlayerI
      (combatBoard s.board fromT toT troops d0 rng) dname = s.players :=
    cardAbsorbPlayers_eq _ _ _ _ ⟨tc, htcm, htco⟩
  unfold attackTransition
  simp only [hcur, hcur2, hfrom, hto, hnb, hd0, hc1, hc2, hc3, hcowner, habs,
    hallf, Bool.false_eq_true, if_false, if_true]
  apply mkState_index_error
  · have : cur ∈ (s.players.filter (fun p =>
        (occupyBoard (combatBoard s.board fromT toT troops d0 rng)
          fromT toT cur.name (remainingTroops troops d0 rng)).territories.any
          (fun t => t.owner == some p.name))) :=
      List.mem_filter.2 ⟨hcmem, hcurin⟩
    have := List.length_pos.2 (List.ne_nil_of_mem this)
    omega
  · have hlt : (s.players.filter (fun p =>
        (occupyBoard (combatBoard s.board fromT toT troops d0 rng)
          fromT toT cur.name (remainingTroops troops d0 rng)).territories.any
          (fun t => t.owner == some p.name))).length < s.players.length :=
      List.length_filter_lt_length_iff_exists.2 ⟨pd, hpd, by simp [hpdout]⟩
    omega

/-- Attack state for the C6 witness: current player C sits at the last
index (2), attacks B's only territory, while A still owns a third
territory. -/
def c6State : GameState :=
  { phase := .attack false
    board :=
      { territories :=
          [ { name := "TA", neighbors := [], owner := some "A", troops := 1 }
          , { name := "TB", neighbors := ["TC"], owner := some "B", troops := 1 }
          , { name := "TC", neighbors := ["TB"], owner := some "C", troops := 3 } ]
        continents := [] }
    players := [{ name := "A", cards := [], reinforcements := 0 }
               , { name := "B", cards := [], reinforcements := 0 }
               , { name := "C", cards := [], reinforcements := 0 }]
    currentPlayerI := 2
    cardTurnins := 0 }

theorem c6_elimination_index_error_witness :
    RiskAction.attackAct "TC" "TB" 2 ∈ attackAvailableActions c6State
    ∧ attackTransition c6State "TC" "TB" 2 [6, 1]
      = .error "IndexError: current_player_i must be <= len(players)" :=
  ⟨by decide,
   c6_elimination_index_error c6State "TC" "TB" 2 [6, 1]
    { name := "C", cards := [], reinforcements := 0 }
    { name := "B", cards := [], reinforcements := 0 }
    ["TB"] 1 "B"
    { name := "TA", neighbors := [], owner := some "A", troops := 1 }
    (by decide) rfl rfl (by decide) (by decide) rfl (by decide) (by decide)
    rfl rfl (by decide) rfl (by decide) (by decide) (by decide) (by decide)
    rfl⟩
